import Mathlib

/-!
Verification of the two reveal.js plugins in this repository against their
specification: the math plugin (a MathJax wrapper, `src/unnamed/part_000`,
registered as `RevealMath`) and the print plugin (`src/print/print.js`,
registered as `RevealPrint`).

JavaScript strings are modelled as `List Char`; JS numeric string indices as
`Int` (so that the sentinel `-1` of `lastIndexOf` is representable); DOM trees
as inductive trees whose nodes carry a `ref : Nat` modelling JS object
identity.  Every definition is translated from the source file it names in its
doc comment; platform built-ins (`String.prototype.substring`,
`decodeURIComponent`, regular-expression tests of the literal pattern
`print-pdf` with the `i` flag) are modelled by explicit executable functions.
-/

/-- JavaScript strings, modelled as lists of characters. -/
abbrev Str := List Char

/-- Check that `n` is an initial segment of `h` (helper for `strIncludes`). -/
def leadsWith : Str → Str → Bool
  | [], _ => true
  | _ :: _, [] => false
  | c :: cs, d :: ds => c == d && leadsWith cs ds

/-- Model of `String.prototype.includes(n)`: `n` occurs as a contiguous
substring of the receiver. -/
def strIncludes (n : Str) : Str → Bool
  | [] => leadsWith n []
  | c :: t => leadsWith n (c :: t) || strIncludes n t

/-- Character-wise lower-casing, modelling the canonicalisation performed by a
case-insensitive regular expression on the ASCII pattern `print-pdf`. -/
def toLowerStr (s : Str) : Str := s.map Char.toLower

/-- Decimal rendering of a natural number, modelling JS number-to-string
coercion for the non-negative integers that occur in the plugins. -/
def natToStr (n : Nat) : Str := (Nat.repr n).toList

/-- Hexadecimal digit value, helper for `decodeURIComponent`. -/
def hexVal (c : Char) : Option Nat :=
  if '0' ≤ c ∧ c ≤ '9' then some (c.toNat - '0'.toNat)
  else if 'a' ≤ c ∧ c ≤ 'f' then some (c.toNat - 'a'.toNat + 10)
  else if 'A' ≤ c ∧ c ≤ 'F' then some (c.toNat - 'A'.toNat + 10)
  else none

/-- Model of the platform built-in `decodeURIComponent` on the single-byte
escape sequences that occur in MathJax equation labels: a valid `%XX` pair
decodes to the character with code `XX`, any other character is copied.  (The
built-in throws on malformed input; the plugins only ever pass it labels with
well-formed escapes, and the theorems below use it either on concrete
escape-free labels or opaquely.) -/
def decodeURIComponent : Str → Str
  | [] => []
  | '%' :: a :: b :: rest =>
    match hexVal a, hexVal b with
    | some x, some y => Char.ofNat (16 * x + y) :: decodeURIComponent rest
    | _, _ => '%' :: decodeURIComponent (a :: b :: rest)
  | c :: rest => c :: decodeURIComponent rest

/-- Greatest index of `s` holding `c`, if any (helper for `lastIndexOf`). -/
def lastIdxAux (c : Char) : Str → Option Nat
  | [] => none
  | d :: t =>
    match lastIdxAux c t with
    | some i => some (i + 1)
    | none => if d == c then some 0 else none

/-- Model of `String.prototype.lastIndexOf` for a one-character search string:
the greatest index holding `c`, or `-1` when `c` does not occur. -/
def jsLastIndexOfChar (c : Char) (s : Str) : Int :=
  match lastIdxAux c s with
  | some i => Int.ofNat i
  | none => -1

/-- Clamp a JS integer index into `[0, len]` (helper for `substring`). -/
def clampIdx (i : Int) (len : Nat) : Nat :=
  if i < 0 then 0 else if i > Int.ofNat len then len else i.toNat

/-- Model of one-argument `String.prototype.substring(a)`: the suffix starting
at `a` clamped into the string. -/
def jsSubstringFrom (a : Int) (s : Str) : Str := s.drop (clampIdx a s.length)

/-- Model of two-argument `String.prototype.substring(a, b)`: both indices are
clamped into `[0, length]` and swapped when out of order. -/
def jsSubstring (a b : Int) (s : Str) : Str :=
  let x := clampIdx a s.length
  let y := clampIdx b s.length
  if x ≤ y then (s.take y).drop x else (s.take x).drop y

namespace MathPlugin

/-! ## The script loader of `src/unnamed/part_000` (`loadScript`, lines 37-66)

`loadScript` installs two notification handlers on the created `script`
element: `script.onload = finish` and an `onreadystatechange` handler that
calls `finish()` exactly when `this.readyState === 'loaded'`.  The wrapper
`finish` invokes the caller's `callback` and then clears it (`callback =
null`), and only invokes it while `typeof callback === 'function'`.

The model tracks the loader's mutable closure state: whether `callback` is
still a function, and how many times it has been invoked.  A run is an
arbitrary sequence of loading notifications delivered by the platform. -/

/-- Closure state of one `loadScript` call: `alive` models
`typeof callback === 'function'`, `calls` counts invocations of the caller's
callback. -/
structure LoadState where
  alive : Bool
  calls : Nat
  deriving DecidableEq, Repr

/-- A loading notification: the script's `load` event, or a legacy
`readystatechange` notification carrying the current `readyState` string. -/
inductive LoadEvent where
  | load
  | readyChange (readyState : Str)
  deriving DecidableEq, Repr

/-- The `finish` wrapper of `loadScript` (part_000 lines 46-53): invoke the
callback and null it out, but only if it is still a function. -/
def finish (st : LoadState) : LoadState :=
  if st.alive then { alive := false, calls := st.calls + 1 } else st

/-- Dispatch of one notification: `script.onload = finish` (line 55), and the
IE handler (lines 58-62) which calls `finish()` iff `readyState === 'loaded'`. -/
def handleEvent (st : LoadState) : LoadEvent → LoadState
  | .load => finish st
  | .readyChange rs => if rs = ("loaded".toList) then finish st else st

/-- Run `loadScript`'s handlers over a sequence of notifications, starting
from the state right after installation with a function-valued callback. -/
def runEvents (evs : List LoadEvent) : LoadState :=
  evs.foldl handleEvent { alive := true, calls := 0 }

/-- Whether a notification reaches `finish` at all. -/
def firesFinish : LoadEvent → Bool
  | .load => true
  | .readyChange rs => rs = ("loaded".toList)

end MathPlugin

/-- Model of the case-insensitive regular-expression tests of the literal
pattern `print-pdf` used by both plugins:
`!!window.location.search.match(/print-pdf/gi)` in `src/print/print.js`
(line 128) and `( /print-pdf/gi ).test( window.location.search )` in
`src/unnamed/part_000` (line 99).  For this all-lowercase ASCII literal
pattern, the test succeeds iff the lower-cased subject contains the pattern
as a contiguous substring. -/
def printPdfTest (search : Str) : Bool :=
  strIncludes ("print-pdf".toList) (toLowerStr search)

/-- Spec-side reading of export-mode detection (refinement counterpart of
`printPdfTest`): the query string contains the substring `print-pdf` in any
letter case. -/
def containsPrintPdfAnyCase (search : Str) : Prop :=
  ∃ a m b, search = a ++ m ++ b ∧ toLowerStr m = ("print-pdf".toList)

namespace MathPlugin

/-- The `printMode` flag computed by `RevealMath.init` (part_000 line 99).
The rest of that `init` never reads it: the math plugin performs no
export-only behavior (the flag is computed and dead). -/
def printMode (search : Str) : Bool := printPdfTest search

/-! ## The engine configuration of `src/unnamed/part_000`

`init` (lines 96-154) installs `window.MathJax = { ... }`, a literal object.
JS values occurring in it are modelled by `JVal`; objects are association
lists in source order.  Braces inside TeX macro strings are written with the
`\x7b`/`\x7d` character escapes for `{`/`}`. -/

/-- A JavaScript value as it occurs in the engine configuration: strings,
numbers, booleans, `null`, an (opaque) function value, nested object
literals, and array literals. -/
inductive JVal where
  | s (v : Str)
  | num (v : ℚ)
  | b (v : Bool)
  | null
  | func
  | obj (fields : List (Str × JVal))
  | arr (elems : List JVal)

/-- Key lookup in an object modelled as an association list (first match). -/
def lookupJ (k : Str) : List (Str × JVal) → Option JVal
  | [] => none
  | (k', v) :: t => if k' == k then some v else lookupJ k t

/-- The `defaults` helper of part_000 (lines 25-34): copy each key of
`defaultOptions` that `options` does not already have onto `options`.  The
source defines this overlay function but `init` never calls it. -/
def defaults (options defaultOptions : List (Str × JVal)) : List (Str × JVal) :=
  defaultOptions.foldl
    (fun opts kv => if opts.any (fun e => e.1 == kv.1) then opts else opts ++ [kv])
    options

/-- The `window.MathJax` object literal assigned by `init` (part_000 lines
102-154), transcribed field by field in source order. -/
def mathJaxConfig : List (Str × JVal) :=
  [(("loader".toList), JVal.obj
      [(("load".toList), JVal.arr [JVal.s ("[tex]/ams".toList)]),
       (("typeset".toList), JVal.b false)]),
   (("startup".toList), JVal.obj
      [(("ready".toList), JVal.func)]),
   (("svg".toList), JVal.obj
      [(("scale".toList), JVal.num 1.5),
       (("minScale".toList), JVal.num 0.5),
       (("matchFontHeight".toList), JVal.b false),
       (("mtextInheritFont".toList), JVal.b true),
       (("merrorInheritFont".toList), JVal.b true),
       (("mathmlSpacing".toList), JVal.b false),
       (("skipAttributes".toList), JVal.obj []),
       (("exFactor".toList), JVal.num 0.5),
       (("displayAlign".toList), JVal.s ("center".toList)),
       (("displayIndent".toList), JVal.s ("0".toList)),
       (("fontCache".toList), JVal.s ("none".toList)),
       (("localID".toList), JVal.null),
       (("internalSpeechTitles".toList), JVal.b true),
       (("titleID".toList), JVal.num 0)]),
   (("tex".toList), JVal.obj
      [(("tags".toList), JVal.s ("ams".toList)),
       (("packages".toList), JVal.obj
          [(("[+]".toList), JVal.arr [JVal.s ("ams".toList)])]),
       (("macros".toList), JVal.obj
          [(("R".toList),
              JVal.s ("\x7b\x7b\\mathrm\x7b\x7bI\x7d\\kern-.15em\x7bR\x7d\x7d\x7d\x7d".toList)),
           (("laplace".toList), JVal.s ("\x7b\\Delta\x7d".toList)),
           (("grad".toList), JVal.s ("\x7b\\nabla\x7d".toList)),
           (("T".toList), JVal.s ("^\x7b\\mathsf\x7bT\x7d\x7d".toList)),
           (("abs".toList), JVal.arr
              [JVal.s ("\\left\\lvert #1 \\right\\rvert".toList), JVal.num 1]),
           (("norm".toList), JVal.arr
              [JVal.s ("\\left\\Vert #1 \\right\\Vert".toList), JVal.num 1]),
           (("iprod".toList), JVal.arr
              [JVal.s ("\\left\\langle #1 \\right\\rangle".toList), JVal.num 1]),
           (("vec".toList), JVal.arr
              [JVal.s ("\x7b\\mathbf\x7b#1\x7d\x7d".toList), JVal.num 1]),
           (("mat".toList), JVal.arr
              [JVal.s ("\x7b\\mathbf\x7b#1\x7d\x7d".toList), JVal.num 1]),
           (("set".toList), JVal.arr
              [JVal.s ("\\mathcal\x7b#1\x7d".toList), JVal.num 1]),
           (("func".toList), JVal.arr
              [JVal.s ("\\mathrm\x7b#1\x7d".toList), JVal.num 1]),
           (("trans".toList), JVal.arr
              [JVal.s ("\x7b#1\x7d\\mkern-1mu^\x7b\\mathsf\x7bT\x7d\x7d".toList),
               JVal.num 1]),
           (("matrix".toList), JVal.arr
              [JVal.s ("\\begin\x7bbmatrix\x7d #1 \\end\x7bbmatrix\x7d".toList),
               JVal.num 1]),
           (("vector".toList), JVal.arr
              [JVal.s ("\\begin\x7bpmatrix\x7d #1 \\end\x7bpmatrix\x7d".toList),
               JVal.num 1]),
           (("of".toList), JVal.arr
              [JVal.s ("\\mkern\x7b-0mu\x7d\\left( #1 \\right)".toList), JVal.num 1]),
           (("diff".toList), JVal.arr
              [JVal.s ("\\frac\x7b\\mathrm\x7bd\x7d\x7b#1\x7d\x7d\x7b\\mathrm\x7bd\x7d\x7b#2\x7d\x7d".toList),
               JVal.num 2]),
           (("pdiff".toList), JVal.arr
              [JVal.s ("\\frac\x7b\\partial \x7b#1\x7d\x7d\x7b\\partial \x7b#2\x7d\x7d".toList),
               JVal.num 2])])])]

/-- The engine configuration payload handed to the typesetting engine by
`init`, as a function of the caller's `Reveal.getConfig().math` options.  The
assignment `window.MathJax = { ... }` (part_000 lines 102-154) mentions no
caller option: the payload is this fixed literal whatever the options are.
(`init` reads only `options.mathjax` and `options.config`, and only to build
the engine's script URL, see `scriptUrl`.) -/
def mathJaxPayload (options : List (Str × JVal)) : List (Str × JVal) :=
  mathJaxConfig

/-- The engine script URL construction of part_000 (lines 19-22):
`options.mathjax || cdn-default` concatenated with `options.config ||
'tex-svg.js'`.  Only string-valued options are meaningful here; a missing or
empty (falsy) value falls back to the default. -/
def scriptUrl (options : List (Str × JVal)) : Str :=
  let mathjax :=
    match lookupJ ("mathjax".toList) options with
    | some (JVal.s v) =>
      if v.isEmpty then ("https://cdn.jsdelivr.net/npm/mathjax@3/es5/".toList) else v
    | _ => ("https://cdn.jsdelivr.net/npm/mathjax@3/es5/".toList)
  let config :=
    match lookupJ ("config".toList) options with
    | some (JVal.s v) => if v.isEmpty then ("tex-svg.js".toList) else v
    | _ => ("tex-svg.js".toList)
  mathjax ++ config

/-! ## `fixLinks` of `src/unnamed/part_000` (lines 69-92)

`fixLinks` iterates over `document.getElementsByTagName("a")`; for each
anchor it reads `a.href`, and only when that value exposes a truthy `baseVal`
(an SVG-animated string; plain HTML string hrefs have no `baseVal`) and the
`baseVal` contains `#mjx-eqn` does it decode the fragment, resolve
`document.getElementById`, take the element's `closest("section")` and
assign `a.href.baseVal = "#" + s.id`.

The document is modelled as an element tree (tags, ids, children, with a
`ref : Nat` per node modelling JS object identity) plus a side table mapping
an anchor's ref to its `href` value.  `fixLinks` assigns only
`a.href.baseVal`, never an id, a tag or the tree shape, so the element
queries (`getElementsByTagName`, `getElementById`, `closest`) read the
immutable tree while the href assignments update the side table. -/

/-- The value of an anchor's `href` property: absent, a plain string (HTML
anchor — no `baseVal`, so `href.baseVal` is undefined and falsy), or an
SVG-animated string exposing `baseVal`. -/
inductive HrefV where
  | noHref
  | plain (s : Str)
  | svg (baseVal : Str)
  deriving DecidableEq, Repr

/-- An element of the document tree: identity `ref`, lower-case tag name,
`id` attribute (`[]` when the element has no id), children. -/
inductive LNode where
  | node (ref : Nat) (tag : Str) (id : Str) (children : List LNode)

/-- The ref of a node. -/
def LNode.nref : LNode → Nat
  | .node r _ _ _ => r

mutual

/-- Refs of the anchors (`getElementsByTagName("a")`) in document order. -/
def anchorRefs : LNode → List Nat
  | .node r tag _ ch => (if tag == ("a".toList) then [r] else []) ++ anchorRefsL ch

/-- List version of `anchorRefs`. -/
def anchorRefsL : List LNode → List Nat
  | [] => []
  | c :: t => anchorRefs c ++ anchorRefsL t

end

mutual

/-- First node (in document order) whose id equals `label` (helper for
`getElementById`; browsers return the first match on duplicate ids). -/
def elemWithId (label : Str) : LNode → Option Nat
  | .node r _ i ch => if i == label then some r else elemWithIdL label ch

/-- List version of `elemWithId`. -/
def elemWithIdL (label : Str) : List LNode → Option Nat
  | [] => none
  | c :: t =>
    match elemWithId label c with
    | some r => some r
    | none => elemWithIdL label t

end

/-- Model of `document.getElementById(label)`: first match in document order;
the empty string never matches (browsers return `null` for it, and elements
without an id — modelled as `id = []` — are not addressable). -/
def getElementById (label : Str) (n : LNode) : Option Nat :=
  if label.isEmpty then none else elemWithId label n

mutual

/-- Model of `eqn.closest("section")`, reading off `s.id`: returns `none` when
`r` does not occur in the tree, `some none` when it does but no
ancestor-or-self has tag `section`, and `some (some sid)` when the nearest
ancestor-or-self section has id `sid`. -/
def closestSection (r : Nat) : LNode → Option (Option Str)
  | .node ref tag i ch =>
    if ref = r then some (if tag == ("section".toList) then some i else none)
    else
      match closestSectionL r ch with
      | none => none
      | some (some sid) => some (some sid)
      | some none => some (if tag == ("section".toList) then some i else none)

/-- List version of `closestSection`. -/
def closestSectionL (r : Nat) : List LNode → Option (Option Str)
  | [] => none
  | c :: t =>
    match closestSection r c with
    | some res => some res
    | none => closestSectionL r t

end

mutual

/-- Every `section` element's id `i` yields a rewritten fragment `"#" ++ i`
that no longer contains the `#mjx-eqn` marker (the condition under which the
spec's idempotence argument is sound). -/
def secIdsClean : LNode → Bool
  | .node _ tag i ch =>
    (!(tag == ("section".toList)) || !(strIncludes ("#mjx-eqn".toList) ('#' :: i))) &&
      secIdsCleanL ch

/-- List version of `secIdsClean`. -/
def secIdsCleanL : List LNode → Bool
  | [] => true
  | c :: t => secIdsClean c && secIdsCleanL t

end

/-- The per-anchor body of `fixLinks` (part_000 lines 73-89): how one
anchor's `href` value is rewritten against the (immutable) element tree. -/
def fixAnchorHref (root : LNode) (h : HrefV) : HrefV :=
  match h with
  | HrefV.svg bv =>
    if bv.isEmpty then h
    else if strIncludes ("#mjx-eqn".toList) bv then
      let label := decodeURIComponent (jsSubstringFrom 1 bv)
      match getElementById label root with
      | some eqnRef =>
        match closestSection eqnRef root with
        | some (some sid) => HrefV.svg ('#' :: sid)
        | _ => h
      | none => h
    else h
  | _ => h

/-- A document for `fixLinks`: the element tree and the href side table. -/
structure LDoc where
  root : LNode
  hrefs : List (Nat × HrefV)

/-- Href lookup by anchor ref. -/
def lookupHref (r : Nat) : List (Nat × HrefV) → Option HrefV
  | [] => none
  | (k, v) :: t => if k = r then some v else lookupHref r t

/-- Href assignment (`a.href.baseVal = ...`) by anchor ref: updates the
existing entries for `r`, inserts nothing. -/
def setHref (r : Nat) (v : HrefV) (tbl : List (Nat × HrefV)) : List (Nat × HrefV) :=
  tbl.map (fun e => if e.1 = r then (e.1, v) else e)

/-- One iteration of the `fixLinks` loop: rewrite the href of anchor `r`. -/
def stepAnchor (root : LNode) (tbl : List (Nat × HrefV)) (r : Nat) :
    List (Nat × HrefV) :=
  match lookupHref r tbl with
  | some h => setHref r (fixAnchorHref root h) tbl
  | none => tbl

/-- The `fixLinks` function (part_000 lines 69-92): rewrite every anchor in
document order.  The element tree is untouched; only hrefs change. -/
def fixLinks (d : LDoc) : LDoc :=
  { root := d.root, hrefs := (anchorRefs d.root).foldl (stepAnchor d.root) d.hrefs }

mutual

/-- All node refs of the tree in document order (for stating that JS object
identities are distinct, as they are in a real DOM). -/
def refsOf : LNode → List Nat
  | .node r _ _ ch => r :: refsOfL ch

/-- List version of `refsOf`. -/
def refsOfL : List LNode → List Nat
  | [] => []
  | c :: t => refsOf c ++ refsOfL t

end

/-- Scenario document for the equation-anchor rewrite: a slide section
`slide-7` containing the element `mjx-eqn:3`, and an SVG anchor whose
fragment is `#mjx-eqn:3`. -/
def eqnDoc : LDoc :=
  { root := .node 0 ("div".toList) [] [
      .node 1 ("section".toList) ("slide-7".toList) [
        .node 2 ("span".toList) ("mjx-eqn:3".toList) []],
      .node 3 ("a".toList) [] []],
    hrefs := [(3, HrefV.svg ("#mjx-eqn:3".toList))] }

/-- Document on which `fixLinks` is not idempotent: the anchor's fragment
resolves into the slide section whose own id `mjx-eqn-x` still contains the
marker, and a second element earlier in document order shares that id, so the
second run re-resolves the rewritten fragment elsewhere. -/
def dupIdDoc : LDoc :=
  { root := .node 0 ("div".toList) [] [
      .node 1 ("section".toList) ("T".toList) [
        .node 2 ("span".toList) ("mjx-eqn-x".toList) []],
      .node 3 ("section".toList) ("mjx-eqn-x".toList) [
        .node 4 ("span".toList) ("mjx-eqn:3".toList) []],
      .node 5 ("a".toList) [] []],
    hrefs := [(5, HrefV.svg ("#mjx-eqn:3".toList))] }

/-- Document with a plain-string (non-SVG) anchor href whose fragment does
contain the equation-anchor marker. -/
def plainDoc : LDoc :=
  { root := .node 0 ("div".toList) [] [
      .node 1 ("section".toList) ("slide-7".toList) [
        .node 2 ("span".toList) ("mjx-eqn:3".toList) []],
      .node 3 ("a".toList) [] []],
    hrefs := [(3, HrefV.plain ("#mjx-eqn:3".toList))] }

end MathPlugin

namespace PrintPlugin

/-! ## `setupTitle` of `src/print/print.js` (lines 111-117) -/

/-- The `setupTitle` function: derives `document.title` from
`window.location.pathname`.  Note the source computes the basename cutoff with
`url.lastIndexOf(".")` — an index into the full path — but applies it to
`filename`. -/
def setupTitle (pathname : Str) : Str :=
  let url := pathname
  let filename := jsSubstringFrom (jsLastIndexOfChar '/' url + 1) url
  let basename := jsSubstring 0 (jsLastIndexOfChar '.' url) filename
  basename ++ ("pdf".toList)

/-! ## `checkHeight` and `slideNumber` of `src/print/print.js` (lines 42-59) -/

/-- The slide coordinates returned by `Reveal.getIndices()`. -/
structure Indices where
  h : Nat
  v : Nat
  deriving DecidableEq, Repr

/-- The `slideNumber` function (print.js lines 55-59): renders the current
slide coordinates.  When `idx.v > 0` the source builds a string by
concatenation; otherwise it returns the number `idx.h + 1`, which the caller's
string concatenation coerces to its decimal rendering. -/
def slideNumber (idx : Indices) : Str :=
  if idx.v > 0 then
    ("(h:".toList) ++ natToStr (idx.h + 1) ++ (", v:".toList) ++
      natToStr (idx.v + 1) ++ (")".toList)
  else natToStr (idx.h + 1)

/-- The observable inputs of `checkHeight`: the configured page height
(`Reveal.getConfig().height`), the current slide's rendered height
(`Reveal.getCurrentSlide().clientHeight`) and the current slide coordinates
(`Reveal.getIndices()`). -/
structure HeightState where
  configHeight : Nat
  clientHeight : Nat
  indices : Indices
  deriving DecidableEq, Repr

/-- The `checkHeight` function (print.js lines 42-51): returns the state it
was given (it mutates nothing) together with the `console.error` diagnostic,
emitted exactly when the slide is strictly taller than the configured page
height. -/
def checkHeight (st : HeightState) : HeightState × Option Str :=
  (st,
    if st.clientHeight > st.configHeight then
      some (("slide ".toList) ++ slideNumber st.indices ++ (" is ".toList) ++
        natToStr (st.clientHeight - st.configHeight) ++ ("px too high".toList))
    else none)

/-! ## `init` of `src/print/print.js` (lines 121-146)

`init` always registers the `slidechanged`/`ready` listeners, then computes
the export flag `pdf` from the query string; only under that flag does it run
`setupIframes()`, `setupVideos()` and `setupTitle()`, and only additionally
outside an automation driver (`!navigator.webdriver`) does it register the
`pdf-ready` listener that schedules `window.print`.  The record below collects
exactly which of these export-only actions a call performs. -/

/-- Which export-only actions one `RevealPrint.init` call performs. -/
structure InitActions where
  iframesActivated : Bool
  videosActivated : Bool
  titleDerived : Bool
  printScheduled : Bool
  deriving DecidableEq, Repr

/-- The export-only behavior of `init` (print.js lines 127-142) as a function
of the query string and the automation-driver flag. -/
def init (search : Str) (webdriver : Bool) : InitActions :=
  let pdf := printPdfTest search
  { iframesActivated := pdf
    videosActivated := pdf
    titleDerived := pdf
    printScheduled := pdf && !webdriver }

/-! ## `fixFooters` of `src/print/print.js` (lines 21-38)

For each slide, the source iterates (by index, over the *live* collection
`slide.getElementsByClassName('footer')`, so the collection is re-read every
iteration) and for each footer whose `parentElement` has `nodeName == "P"` it
executes `slide.appendChild(footer)` (the DOM moves the node: it is detached
from its current parent and appended to the slide's child list) and then, if
the captured `parent` has no child nodes left, `parent.parentElement.
removeChild(parent)`.

A slide is a tree of element and text nodes; `ref : Nat` models JS object
identity (distinct nodes of a real DOM have distinct refs), element tags are
stored as `nodeName` spells them (upper case: `SECTION`, `P`, `DIV`, ...).
The removal target is always a `P` element and never the slide root (a
`SECTION`): right after `slide.appendChild(footer)` the slide has at least
one child, so when `parent` is the slide itself the `childNodes.length == 0`
guard fails; hence modelling removal as removal-of-a-descendant is exact. -/

/-- A DOM node of a slide: an element (identity, upper-case tag, class list,
children) or a text node (identity, character data). -/
inductive PNode where
  | elem (ref : Nat) (tag : Str) (classes : List Str) (children : List PNode)
  | text (ref : Nat) (s : Str)

/-- Node identity. -/
def PNode.pref : PNode → Nat
  | .elem r _ _ _ => r
  | .text r _ => r

/-- Element tag (`nodeName`); text nodes never occur where this is read. -/
def PNode.ptag : PNode → Str
  | .elem _ t _ _ => t
  | .text _ _ => []

/-- Child list (`childNodes`, so text nodes count). -/
def PNode.pchildren : PNode → List PNode
  | .elem _ _ _ ch => ch
  | .text _ _ => []

/-- Whether the node is an element. -/
def PNode.isElemN : PNode → Bool
  | .elem _ _ _ _ => true
  | .text _ _ => false

mutual

/-- All refs of a slide tree in document order. -/
def refsP : PNode → List Nat
  | .elem r _ _ ch => r :: refsPL ch
  | .text r _ => [r]

/-- List version of `refsP`. -/
def refsPL : List PNode → List Nat
  | [] => []
  | c :: t => refsP c ++ refsPL t

end

mutual

/-- Total node count (used as loop fuel; one loop iteration is run per index
`i` and the live footer collection can never grow, so the iteration count is
bounded by the initial footer count, which this dominates). -/
def countNodes : PNode → Nat
  | .elem _ _ _ ch => 1 + countNodesL ch
  | .text _ _ => 1

/-- List version of `countNodes`. -/
def countNodesL : List PNode → Nat
  | [] => 0
  | c :: t => countNodes c + countNodesL t

end

mutual

/-- Nodes of class `footer` in this subtree (self included), document order. -/
def footerNodes : PNode → List PNode
  | .text _ _ => []
  | .elem r t cls ch =>
    (if cls.contains ("footer".toList) then [PNode.elem r t cls ch] else []) ++
      footerNodesL ch

/-- List version of `footerNodes`. -/
def footerNodesL : List PNode → List PNode
  | [] => []
  | c :: t => footerNodes c ++ footerNodesL t

end

/-- The live collection `slide.getElementsByClassName('footer')` re-read at
one instant: the footer-classed elements among the slide's *descendants* in
document order (the root itself is not its own descendant). -/
def footersOf : PNode → List PNode
  | .text _ _ => []
  | .elem _ _ _ ch => footerNodesL ch

mutual

/-- First node (in document order, root included) with ref `x`: the current
state of the node a JS variable with that identity refers to. -/
def findRef (x : Nat) : PNode → Option PNode
  | .text r s => if r = x then some (.text r s) else none
  | .elem r t cls ch =>
    if r = x then some (.elem r t cls ch) else findRefL x ch

/-- List version of `findRef`. -/
def findRefL (x : Nat) : List PNode → Option PNode
  | [] => none
  | c :: t =>
    match findRef x c with
    | some f => some f
    | none => findRefL x t

end

mutual

/-- Model of `footer.parentElement` within the slide: the first node (in
document order) having a child with ref `x`. -/
def parentOf (x : Nat) : PNode → Option PNode
  | .text _ _ => none
  | .elem r t cls ch =>
    if ch.any (fun c => c.pref = x) then some (.elem r t cls ch)
    else parentOfL x ch

/-- List version of `parentOf`. -/
def parentOfL (x : Nat) : List PNode → Option PNode
  | [] => none
  | c :: t =>
    match parentOf x c with
    | some p => some p
    | none => parentOfL x t

end

mutual

/-- Detach the first descendant with ref `x` (root excluded — no DOM call in
`fixFooters` removes the slide root, see the section comment).  Returns the
new tree and whether a node was detached. -/
def removeFirst (x : Nat) : PNode → PNode × Bool
  | .text r s => (.text r s, false)
  | .elem r t cls ch =>
    let p := removeFirstL x ch
    (.elem r t cls p.1, p.2)

/-- List version of `removeFirst`. -/
def removeFirstL (x : Nat) : List PNode → List PNode × Bool
  | [] => ([], false)
  | c :: rest =>
    if c.pref = x then (rest, true)
    else
      let pc := removeFirst x c
      if pc.2 then (pc.1 :: rest, true)
      else
        let pr := removeFirstL x rest
        (c :: pr.1, pr.2)

end

/-- Append a node at the end of the slide root's child list. -/
def appendToRoot (f : PNode) : PNode → PNode
  | .elem r t cls ch => .elem r t cls (ch ++ [f])
  | .text r s => .text r s

/-- Model of `slide.appendChild(footer)` for a `footer` already in the slide:
the DOM detaches the node from its current parent and appends it to the
slide's children. -/
def moveToSlide (x : Nat) (slide : PNode) : PNode :=
  match findRef x slide with
  | some f => appendToRoot f (removeFirst x slide).1
  | none => slide

/-- One iteration of the `fixFooters` loop body (print.js lines 25-36) at
index `i`: re-read the live footer collection, and if `footers[i]` exists and
its parent is a `P`, move it to the slide and drop the parent if it is left
with no child nodes. -/
def fixStep (slide : PNode) (i : Nat) : PNode :=
  match (footersOf slide).get? i with
  | none => slide
  | some f =>
    match parentOf f.pref slide with
    | none => slide
    | some p =>
      if p.ptag == ("P".toList) then
        let slide' := moveToSlide f.pref slide
        match findRef p.pref slide' with
        | some p' =>
          if p'.pchildren.length = 0 then (removeFirst p.pref slide').1 else slide'
        | none => slide'
      else slide

/-- The `for (var i=0; i<footers.length; i++)` loop with explicit fuel (the
loop guard re-reads the live collection's length each iteration). -/
def fixLoop : Nat → Nat → PNode → PNode
  | 0, _, slide => slide
  | fuel + 1, i, slide =>
    if i < (footersOf slide).length then fixLoop fuel (i + 1) (fixStep slide i)
    else slide

/-- `fixFooters` restricted to one slide. -/
def fixSlide (slide : PNode) : PNode := fixLoop (countNodes slide) 0 slide

/-- The `fixFooters` function (print.js lines 21-38): process every slide of
`Reveal.getSlides()`; each slide's fixup touches only that slide's subtree. -/
def fixFooters (slides : List PNode) : List PNode := slides.map fixSlide

/-- Whether no footer of the slide currently has a `P` parent. -/
def noFooterInP (slide : PNode) : Bool :=
  (footersOf slide).all (fun f =>
    match parentOf f.pref slide with
    | some p => !(p.ptag == ("P".toList))
    | none => true)

mutual

/-- Witness predicate for C10: the tree contains a `P` element with identity
`r` holding a text-node child with identity `t` and data `s`. -/
def hasPT (r t : Nat) (s : Str) : PNode → Bool
  | .text _ _ => false
  | .elem r' tag _ ch =>
    (decide (r' = r) && (tag == ("P".toList)) && ch.any (fun c =>
      match c with
      | .text t' s' => decide (t' = t) && (s' == s)
      | .elem _ _ _ _ => false)) ||
      hasPTL r t s ch

/-- List version of `hasPT`. -/
def hasPTL (r t : Nat) (s : Str) : List PNode → Bool
  | [] => false
  | c :: rest => hasPT r t s c || hasPTL r t s rest

end

mutual

/-- No text node of the tree has ref `q` (holds for every ref of an element
whenever node identities are distinct). -/
def textRefFree (q : Nat) : PNode → Bool
  | .text r _ => decide (r ≠ q)
  | .elem _ _ _ ch => textRefFreeL q ch

/-- List version of `textRefFree`. -/
def textRefFreeL (q : Nat) : List PNode → Bool
  | [] => true
  | c :: t => textRefFree q c && textRefFreeL q t

end

mutual

/-- Some element node of the tree has ref `x`. -/
def elemRefIn (x : Nat) : PNode → Bool
  | .text _ _ => false
  | .elem r _ _ ch => decide (r = x) || elemRefInL x ch

/-- List version of `elemRefIn`. -/
def elemRefInL (x : Nat) : List PNode → Bool
  | [] => false
  | c :: t => elemRefIn x c || elemRefInL x t

end

/-- The C7 scenario slide: `<section><p><span class="footer">X</span></p>
</section>`. -/
def footerSlide : PNode :=
  .elem 0 ("SECTION".toList) [] [
    .elem 1 ("P".toList) [] [
      .elem 2 ("SPAN".toList) [("footer".toList)] [
        .text 3 ("X".toList)]]]

/-- A slide whose only footer sits inside a `DIV`: no footer has a `P`
parent. -/
def divSlide : PNode :=
  .elem 0 ("SECTION".toList) [] [
    .elem 1 ("DIV".toList) [] [
      .elem 2 ("SPAN".toList) [("footer".toList)] []]]

/-- A slide exercising both C10 conditions: one footer inside a `DIV` (left
in place), one footer inside a `P` that also holds a whitespace text node
(the footer moves, the paragraph stays). -/
def mixedSlide : PNode :=
  .elem 0 ("SECTION".toList) [] [
    .elem 1 ("DIV".toList) [] [
      .elem 2 ("SPAN".toList) [("footer".toList)] []],
    .elem 3 ("P".toList) [] [
      .elem 4 ("SPAN".toList) [("footer".toList)] [],
      .text 5 (" ".toList)]]

end PrintPlugin

-- ===== THEOREMS =====

/-- Auxiliary characterisation of `leadsWith`. -/
theorem leadsWith_iff (n h : Str) : leadsWith n h = true ↔ ∃ b, h = n ++ b := by
  induction n generalizing h with
  | nil => simp [leadsWith]
  | cons c cs ih =>
    cases h with
    | nil => simp [leadsWith]
    | cons d ds =>
      simp only [leadsWith, Bool.and_eq_true, beq_iff_eq, ih]
      constructor
      · rintro ⟨rfl, b, rfl⟩
        exact ⟨b, rfl⟩
      · rintro ⟨b, hb⟩
        cases hb
        exact ⟨rfl, b, rfl⟩

/-- Auxiliary characterisation of `strIncludes`: it decides contiguous
substring occurrence. -/
theorem strIncludes_iff (n h : Str) :
    strIncludes n h = true ↔ ∃ a b, h = a ++ n ++ b := by
  induction h with
  | nil =>
    simp only [strIncludes, leadsWith_iff]
    constructor
    · rintro ⟨b, hb⟩
      exact ⟨[], b, hb⟩
    · rintro ⟨a, b, hab⟩
      rcases List.append_eq_nil.mp (List.append_eq_nil.mp hab.symm).1 with ⟨rfl, rfl⟩
      exact ⟨b, hab⟩
  | cons c t ih =>
    simp only [strIncludes, Bool.or_eq_true, leadsWith_iff, ih]
    constructor
    · rintro (⟨b, hb⟩ | ⟨a, b, hb⟩)
      · exact ⟨[], b, by simpa using hb⟩
      · exact ⟨c :: a, b, by simp [hb]⟩
    · rintro ⟨a, b, hb⟩
      cases a with
      | nil => exact Or.inl ⟨b, by simpa using hb⟩
      | cons x xs =>
        right
        simp only [List.cons_append, List.cons.injEq] at hb
        exact ⟨xs, b, hb.2⟩

/-- Helper: a notification that reaches `finish` consumes a live callback. -/
theorem handleEvent_live_fires (e : MathPlugin.LoadEvent) (c : Nat)
    (h : MathPlugin.firesFinish e = true) :
    MathPlugin.handleEvent { alive := true, calls := c } e =
      { alive := false, calls := c + 1 } := by
  cases e with
  | load => rfl
  | readyChange rs =>
    simp only [MathPlugin.firesFinish, decide_eq_true_eq] at h
    simp [MathPlugin.handleEvent, h, MathPlugin.finish]

/-- Helper: a notification that does not reach `finish` changes nothing. -/
theorem handleEvent_live_skips (e : MathPlugin.LoadEvent) (c : Nat)
    (h : MathPlugin.firesFinish e = false) :
    MathPlugin.handleEvent { alive := true, calls := c } e =
      { alive := true, calls := c } := by
  cases e with
  | load => simp [MathPlugin.firesFinish] at h
  | readyChange rs =>
    simp only [MathPlugin.firesFinish, decide_eq_false_iff_not] at h
    simp only [MathPlugin.handleEvent]
    rw [if_neg h]

/-- Helper: once the callback has been cleared, every later notification is a
no-op. -/
theorem handleEvent_dead (st : MathPlugin.LoadState) (e : MathPlugin.LoadEvent)
    (h : st.alive = false) : MathPlugin.handleEvent st e = st := by
  cases e with
  | load => simp [MathPlugin.handleEvent, MathPlugin.finish, h]
  | readyChange rs =>
    by_cases hrs : rs = ("loaded".toList) <;>
      simp [MathPlugin.handleEvent, MathPlugin.finish, h, hrs]

/-- Helper: folding any notification sequence over a dead state is the
identity. -/
theorem foldl_dead (l : List MathPlugin.LoadEvent) (st : MathPlugin.LoadState)
    (h : st.alive = false) : l.foldl MathPlugin.handleEvent st = st := by
  induction l with
  | nil => rfl
  | cons e t ih => rw [List.foldl_cons, handleEvent_dead st e h]; exact ih

/-- Claim C1: over any sequence of loading notifications, `loadScript`'s
callback is invoked exactly once if at least one notification reaches `finish`
(the `load` event, or a ready-state change to `'loaded'`), and never a second
time — in particular not when both notification paths fire, in either order. -/
theorem loadScript_callback_fires_once (evs : List MathPlugin.LoadEvent) :
    (MathPlugin.runEvents evs).calls =
      (if evs.any MathPlugin.firesFinish then 1 else 0) := by
  have key : ∀ (l : List MathPlugin.LoadEvent) (c : Nat),
      (l.foldl MathPlugin.handleEvent { alive := true, calls := c }).calls =
        c + (if l.any MathPlugin.firesFinish then 1 else 0) := by
    intro l
    induction l with
    | nil => simp
    | cons e t ih =>
      intro c
      rw [List.foldl_cons, List.any_cons]
      cases hf : MathPlugin.firesFinish e with
      | true =>
        rw [handleEvent_live_fires e c hf,
          foldl_dead t { alive := false, calls := c + 1 } rfl]
        simp [hf]
      | false =>
        rw [handleEvent_live_skips e c hf, ih c]
        simp [hf]
  simpa [MathPlugin.runEvents] using key evs 0

/-- Claim C2, counterexample: on the pathname `/deck/lecture-3.html` the code
does not produce the title `lecture-3pdf` claimed by the spec — the basename
cutoff `url.lastIndexOf(".")` is an index into the full path (15), which
exceeds the length of `filename` (14), so nothing is cut off. -/
theorem setupTitle_not_lecture3pdf :
    PrintPlugin.setupTitle ("/deck/lecture-3.html".toList) ≠ ("lecture-3pdf".toList) := by
  decide

/-- Claim C2, amended: for the pathname `/deck/lecture-3.html`, `setupTitle`
sets the document title to `lecture-3.htmlpdf` (the full filename with the
`pdf` suffix appended, since the misdirected cutoff index exceeds the
filename's length). -/
theorem setupTitle_lecture3 :
    PrintPlugin.setupTitle ("/deck/lecture-3.html".toList) = ("lecture-3.htmlpdf".toList) := by
  decide

/-- Claim C6: `checkHeight` leaves the state unchanged and emits a diagnostic
iff the slide's rendered height strictly exceeds the configured page height;
the diagnostic contains the slide coordinates and the decimal overflow amount;
and with configured height 700 and clientHeight 750 it contains `50`. -/
theorem checkHeight_diagnostic (st : PrintPlugin.HeightState) :
    (PrintPlugin.checkHeight st).1 = st ∧
    ((∃ msg, (PrintPlugin.checkHeight st).2 = some msg) ↔
      st.clientHeight > st.configHeight) ∧
    (∀ msg, (PrintPlugin.checkHeight st).2 = some msg →
      strIncludes (PrintPlugin.slideNumber st.indices) msg = true ∧
      strIncludes (natToStr (st.clientHeight - st.configHeight)) msg = true) ∧
    (∀ idx msg,
      (PrintPlugin.checkHeight
        { configHeight := 700, clientHeight := 750, indices := idx }).2 = some msg →
      strIncludes ("50".toList) msg = true) := by
  refine ⟨rfl, ?_, ?_, ?_⟩
  · constructor
    · rintro ⟨msg, hmsg⟩
      by_contra hle
      rw [show (PrintPlugin.checkHeight st).2 = none by
        simp [PrintPlugin.checkHeight, if_neg hle]] at hmsg
      exact Option.noConfusion hmsg
    · intro hgt
      exact ⟨("slide ".toList) ++ PrintPlugin.slideNumber st.indices ++
        (" is ".toList) ++ natToStr (st.clientHeight - st.configHeight) ++
        ("px too high".toList), by simp [PrintPlugin.checkHeight, hgt]⟩
  · intro msg hmsg
    by_cases hgt : st.clientHeight > st.configHeight
    · rw [show (PrintPlugin.checkHeight st).2 =
          some (("slide ".toList) ++ PrintPlugin.slideNumber st.indices ++
            (" is ".toList) ++ natToStr (st.clientHeight - st.configHeight) ++
            ("px too high".toList)) by
        simp [PrintPlugin.checkHeight, if_pos hgt]] at hmsg
      obtain rfl : _ = msg := Option.some.inj hmsg
      constructor
      · rw [strIncludes_iff]
        refine ⟨("slide ".toList),
          (" is ".toList) ++ natToStr (st.clientHeight - st.configHeight) ++
            ("px too high".toList), ?_⟩
        simp [List.append_assoc]
      · rw [strIncludes_iff]
        refine ⟨("slide ".toList) ++ PrintPlugin.slideNumber st.indices ++
          (" is ".toList), ("px too high".toList), ?_⟩
        simp [List.append_assoc]
    · rw [show (PrintPlugin.checkHeight st).2 = none by
        simp [PrintPlugin.checkHeight, if_neg hgt]] at hmsg
      exact Option.noConfusion hmsg
  · intro idx msg hmsg
    have hgt : (750 : Nat) > 700 := by norm_num
    rw [show (PrintPlugin.checkHeight
          { configHeight := 700, clientHeight := 750, indices := idx }).2 =
        some (("slide ".toList) ++ PrintPlugin.slideNumber idx ++
          (" is ".toList) ++ natToStr (750 - 700) ++ ("px too high".toList)) by
      simp [PrintPlugin.checkHeight]] at hmsg
    obtain rfl : _ = msg := Option.some.inj hmsg
    rw [strIncludes_iff]
    refine ⟨("slide ".toList) ++ PrintPlugin.slideNumber idx ++ (" is ".toList),
      ("px too high".toList), ?_⟩
    rw [show natToStr (750 - 700) = ("50".toList) by decide]

/-- Witness for `checkHeight_diagnostic` at a concrete state: height 700,
clientHeight 750, slide coordinates (h, v) = (2, 0); the diagnostic is emitted
and contains the coordinate string and the overflow `50`. -/
theorem checkHeight_diagnostic_witness :
    ((PrintPlugin.checkHeight
        { configHeight := 700, clientHeight := 750,
          indices := { h := 2, v := 0 } }).2 =
      some (("slide 3 is 50px too high".toList))) ∧
    strIncludes ("50".toList) ("slide 3 is 50px too high".toList) = true := by
  have h := (checkHeight_diagnostic
    { configHeight := 700, clientHeight := 750, indices := { h := 2, v := 0 } }).2.2.2
  refine ⟨by decide, ?_⟩
  exact h { h := 2, v := 0 } _ (by decide)

/-- Helper for C8: the case-insensitive literal-pattern test succeeds exactly
when the subject contains `print-pdf` in some letter case. -/
theorem printPdfTest_iff (s : Str) :
    printPdfTest s = true ↔ containsPrintPdfAnyCase s := by
  rw [printPdfTest, strIncludes_iff, containsPrintPdfAnyCase]
  constructor
  · rintro ⟨a, b, hab⟩
    rw [toLowerStr, List.map_eq_append_iff] at hab
    obtain ⟨l₁, l₂, rfl, h₁, h₂⟩ := hab
    rw [List.map_eq_append_iff] at h₁
    obtain ⟨la, m, rfl, ha, hm⟩ := h₁
    exact ⟨la, m, l₂, rfl, hm⟩
  · rintro ⟨a, m, b, rfl, hm⟩
    refine ⟨toLowerStr a, toLowerStr b, ?_⟩
    simp only [toLowerStr] at hm ⊢
    simp [hm]

/-- Claim C8: in both plugins the export-mode flag is exactly "query string
contains `print-pdf` in any letter case", and `RevealPrint.init` performs the
iframe/video/title fixups exactly when that flag holds, scheduling the
platform print action exactly when it holds outside an automation driver.
(`RevealMath.init` merely computes the same flag, `printMode`, and performs no
export-only behavior with or without it.) -/
theorem exportMode_detection (search : Str) (webdriver : Bool) :
    (printPdfTest search = true ↔ containsPrintPdfAnyCase search) ∧
    MathPlugin.printMode search = printPdfTest search ∧
    (PrintPlugin.init search webdriver).iframesActivated = printPdfTest search ∧
    (PrintPlugin.init search webdriver).videosActivated = printPdfTest search ∧
    (PrintPlugin.init search webdriver).titleDerived = printPdfTest search ∧
    (PrintPlugin.init search webdriver).printScheduled =
      (printPdfTest search && !webdriver) :=
  ⟨printPdfTest_iff search, rfl, rfl, rfl, rfl, rfl⟩

/-- Claim C3, counterexample: the merged-payload claim fails at the caller
options `{foo: true}` — the configuration payload handed to the engine does
not contain the caller's key `foo` at all (the `window.MathJax` literal is
independent of the caller's options, and the `defaults` overlay helper is
never applied to it). -/
theorem mathJaxPayload_drops_caller_key :
    ¬ (∀ k v, (k, v) ∈ [(("foo".toList), MathPlugin.JVal.b true)] →
        MathPlugin.lookupJ k
          (MathPlugin.mathJaxPayload [(("foo".toList), MathPlugin.JVal.b true)]) =
          some v) := by
  intro h
  have hfoo := h ("foo".toList) (MathPlugin.JVal.b true) (by simp)
  rw [show MathPlugin.lookupJ ("foo".toList)
      (MathPlugin.mathJaxPayload [(("foo".toList), MathPlugin.JVal.b true)]) = none
    from rfl] at hfoo
  exact Option.noConfusion hfoo

/-- Claim C3, amended: the engine configuration payload handed to the
typesetting engine is the fixed built-in configuration object, independent of
the caller's options; caller-supplied keys do not appear in it (caller options
only select the engine script URL via their `mathjax` and `config` keys), so
every key of the payload carries the built-in value. -/
theorem mathJaxPayload_is_builtin (options : List (Str × MathPlugin.JVal)) :
    MathPlugin.mathJaxPayload options = MathPlugin.mathJaxConfig := rfl

/-- Claim C5: in the scenario document — anchor fragment `#mjx-eqn:3`, element
`mjx-eqn:3` inside the slide section `slide-7` — `fixLinks` rewrites the
anchor's fragment to `#slide-7`. -/
theorem fixLinks_eqn_scenario :
    (MathPlugin.fixLinks MathPlugin.eqnDoc).hrefs =
      [(3, MathPlugin.HrefV.svg ("#slide-7".toList))] := by decide

/-- Claim C4, counterexample: `fixLinks` is not idempotent on every document
state.  On `dupIdDoc` the first run rewrites the anchor to `#mjx-eqn-x` (the
enclosing section's id), which still contains the `#mjx-eqn` marker; the
second run re-resolves it to the earlier element with id `mjx-eqn-x` and
rewrites the anchor to `#T`. -/
theorem fixLinks_not_idempotent :
    MathPlugin.fixLinks (MathPlugin.fixLinks MathPlugin.dupIdDoc) ≠
      MathPlugin.fixLinks MathPlugin.dupIdDoc := by
  intro h
  have h2 := congrArg MathPlugin.LDoc.hrefs h
  rw [show (MathPlugin.fixLinks (MathPlugin.fixLinks MathPlugin.dupIdDoc)).hrefs =
        [(5, MathPlugin.HrefV.svg ("#T".toList))] from rfl,
      show (MathPlugin.fixLinks MathPlugin.dupIdDoc).hrefs =
        [(5, MathPlugin.HrefV.svg ("#mjx-eqn-x".toList))] from rfl] at h2
  exact absurd h2 (by decide)

mutual

/-- Helper: when every section id is clean, any id returned by
`closestSection` yields a marker-free rewritten fragment. -/
theorem secClean_closest (r : Nat) (n : MathPlugin.LNode) (sid : Str)
    (hc : MathPlugin.secIdsClean n = true)
    (h : MathPlugin.closestSection r n = some (some sid)) :
    strIncludes ("#mjx-eqn".toList) ('#' :: sid) = false := by
  cases n with
  | node ref tag i ch =>
    rw [MathPlugin.secIdsClean, Bool.and_eq_true] at hc
    rw [MathPlugin.closestSection] at h
    by_cases hr : ref = r
    · rw [if_pos hr] at h
      by_cases ht : tag == ("section".toList)
      · rw [if_pos ht] at h
        obtain rfl : i = sid := Option.some.inj (Option.some.inj h)
        rcases Bool.or_eq_true_iff.mp hc.1 with hl | hl
        · rw [ht] at hl; exact Bool.noConfusion hl
        · simpa using hl
      · rw [if_neg ht] at h
        exact Option.noConfusion (Option.some.inj h)
    · rw [if_neg hr] at h
      cases hl : MathPlugin.closestSectionL r ch with
      | none => rw [hl] at h; exact Option.noConfusion h
      | some res =>
        cases res with
        | none =>
          rw [hl] at h
          by_cases ht : tag == ("section".toList)
          · rw [if_pos ht] at h
            obtain rfl : i = sid := Option.some.inj (Option.some.inj h)
            rcases Bool.or_eq_true_iff.mp hc.1 with hl2 | hl2
            · rw [ht] at hl2; exact Bool.noConfusion hl2
            · simpa using hl2
          · rw [if_neg ht] at h
            exact Option.noConfusion (Option.some.inj h)
        | some sid' =>
          rw [hl] at h
          have heq : sid' = sid := Option.some.inj (Option.some.inj h)
          exact heq ▸ secClean_closestL r ch sid' hc.2 hl

/-- List version of `secClean_closest`. -/
theorem secClean_closestL (r : Nat) (l : List MathPlugin.LNode) (sid : Str)
    (hc : MathPlugin.secIdsCleanL l = true)
    (h : MathPlugin.closestSectionL r l = some (some sid)) :
    strIncludes ("#mjx-eqn".toList) ('#' :: sid) = false := by
  cases l with
  | nil => rw [MathPlugin.closestSectionL] at h; exact Option.noConfusion h
  | cons c t =>
    rw [MathPlugin.secIdsCleanL, Bool.and_eq_true] at hc
    rw [MathPlugin.closestSectionL] at h
    cases hcc : MathPlugin.closestSection r c with
    | none =>
      rw [hcc] at h
      exact secClean_closestL r t sid hc.2 h
    | some res =>
      rw [hcc] at h
      obtain rfl : res = some sid := Option.some.inj h
      exact secClean_closest r c sid hc.1 hcc

end

/-- Helper: one `fixLinks` iteration either leaves the href unchanged or
rewrites it to `"#" ++ sid` for a section id `sid` delivered by
`closestSection`. -/
theorem fixAnchorHref_spec (root : MathPlugin.LNode) (h : MathPlugin.HrefV) :
    MathPlugin.fixAnchorHref root h = h ∨
    ∃ eqnRef sid, MathPlugin.closestSection eqnRef root = some (some sid) ∧
      MathPlugin.fixAnchorHref root h = MathPlugin.HrefV.svg ('#' :: sid) := by
  cases h with
  | noHref => exact Or.inl rfl
  | plain s => exact Or.inl rfl
  | svg bv =>
    simp only [MathPlugin.fixAnchorHref]
    by_cases he : bv.isEmpty
    · rw [if_pos he]; exact Or.inl rfl
    · rw [if_neg he]
      by_cases hin : strIncludes ("#mjx-eqn".toList) bv = true
      · rw [if_pos hin]
        cases hg : MathPlugin.getElementById
            (decodeURIComponent (jsSubstringFrom 1 bv)) root with
        | none => simp only [hg]; exact Or.inl trivial
        | some eqnRef =>
          simp only [hg]
          cases hcs : MathPlugin.closestSection eqnRef root with
          | none => simp only [hcs]; exact Or.inl trivial
          | some res =>
            cases res with
            | none => simp only [hcs]; exact Or.inl trivial
            | some sid =>
              simp only [hcs]
              exact Or.inr ⟨eqnRef, sid, hcs, rfl⟩
      · rw [if_neg hin]; exact Or.inl rfl

/-- Helper: under clean section ids, every href in the image of the rewrite is
a fixpoint of the rewrite. -/
theorem fixAnchorHref_idem (root : MathPlugin.LNode)
    (hc : MathPlugin.secIdsClean root = true) (h : MathPlugin.HrefV) :
    MathPlugin.fixAnchorHref root (MathPlugin.fixAnchorHref root h) =
      MathPlugin.fixAnchorHref root h := by
  rcases fixAnchorHref_spec root h with heq | ⟨eqnRef, sid, hcs, heq⟩
  · rw [heq]; exact heq
  · rw [heq]
    have hinc := secClean_closest eqnRef root sid hc hcs
    simp only [MathPlugin.fixAnchorHref, List.isEmpty_cons, Bool.false_eq_true,
      if_false, hinc]

/-- Helper: `setHref` unfolded one entry at a time, matching-key case. -/
theorem setHref_cons_eq (k : Nat) (v w : MathPlugin.HrefV)
    (t : List (Nat × MathPlugin.HrefV)) :
    MathPlugin.setHref k v ((k, w) :: t) = (k, v) :: MathPlugin.setHref k v t := by
  simp [MathPlugin.setHref]

/-- Helper: `setHref` unfolded one entry at a time, other-key case. -/
theorem setHref_cons_ne (r k : Nat) (v w : MathPlugin.HrefV)
    (t : List (Nat × MathPlugin.HrefV)) (hk : k ≠ r) :
    MathPlugin.setHref r v ((k, w) :: t) = (k, w) :: MathPlugin.setHref r v t := by
  simp [MathPlugin.setHref, hk]

/-- Helper: assigning a key that has no entry changes nothing. -/
theorem setHref_not_mem (r : Nat) (v : MathPlugin.HrefV)
    (tbl : List (Nat × MathPlugin.HrefV)) (h : r ∉ tbl.map Prod.fst) :
    MathPlugin.setHref r v tbl = tbl := by
  induction tbl with
  | nil => rfl
  | cons e t ih =>
    obtain ⟨k, w⟩ := e
    simp only [List.map_cons, List.mem_cons, not_or] at h
    rw [setHref_cons_ne r k v w t (fun habs => h.1 habs.symm), ih h.2]

/-- Helper: reading back the href just assigned. -/
theorem lookupHref_setHref_self (r : Nat) (v : MathPlugin.HrefV)
    (tbl : List (Nat × MathPlugin.HrefV)) :
    MathPlugin.lookupHref r (MathPlugin.setHref r v tbl) =
      (MathPlugin.lookupHref r tbl).map (fun _ => v) := by
  induction tbl with
  | nil => rfl
  | cons e t ih =>
    obtain ⟨k, w⟩ := e
    by_cases hk : k = r
    · subst hk
      rw [setHref_cons_eq k v w t]
      rw [MathPlugin.lookupHref, if_pos rfl, MathPlugin.lookupHref, if_pos rfl]
      rfl
    · rw [setHref_cons_ne r k v w t hk]
      rw [MathPlugin.lookupHref, if_neg hk, MathPlugin.lookupHref, if_neg hk]
      exact ih

/-- Helper: assigning one anchor's href leaves the other entries alone. -/
theorem lookupHref_setHref_other (r r' : Nat) (v : MathPlugin.HrefV)
    (tbl : List (Nat × MathPlugin.HrefV)) (hne : r' ≠ r) :
    MathPlugin.lookupHref r' (MathPlugin.setHref r v tbl) =
      MathPlugin.lookupHref r' tbl := by
  induction tbl with
  | nil => rfl
  | cons e t ih =>
    obtain ⟨k, w⟩ := e
    by_cases hk : k = r
    · subst hk
      rw [setHref_cons_eq k v w t]
      have hk' : k ≠ r' := fun habs => hne (habs ▸ rfl)
      rw [MathPlugin.lookupHref, if_neg hk', MathPlugin.lookupHref, if_neg hk']
      exact ih
    · rw [setHref_cons_ne r k v w t hk]
      by_cases hk' : k = r'
      · rw [MathPlugin.lookupHref, if_pos hk', MathPlugin.lookupHref, if_pos hk']
      · rw [MathPlugin.lookupHref, if_neg hk', MathPlugin.lookupHref, if_neg hk']
        exact ih

/-- Helper: re-assigning the value an entry already holds changes nothing
(given distinct table keys). -/
theorem setHref_eq_of_lookup (r : Nat) (v : MathPlugin.HrefV)
    (tbl : List (Nat × MathPlugin.HrefV))
    (hnd : (tbl.map Prod.fst).Nodup)
    (hl : MathPlugin.lookupHref r tbl = some v) :
    MathPlugin.setHref r v tbl = tbl := by
  induction tbl with
  | nil => rfl
  | cons e t ih =>
    obtain ⟨k, w⟩ := e
    simp only [List.map_cons, List.nodup_cons] at hnd
    by_cases hk : k = r
    · subst hk
      rw [MathPlugin.lookupHref, if_pos rfl] at hl
      have hwv : w = v := Option.some.inj hl
      subst hwv
      rw [setHref_cons_eq k w w t, setHref_not_mem k w t hnd.1]
    · rw [MathPlugin.lookupHref, if_neg hk] at hl
      rw [setHref_cons_ne r k v w t hk, ih hnd.2 hl]

/-- Helper: `setHref` preserves the key list of the table. -/
theorem setHref_keys (r : Nat) (v : MathPlugin.HrefV)
    (tbl : List (Nat × MathPlugin.HrefV)) :
    (MathPlugin.setHref r v tbl).map Prod.fst = tbl.map Prod.fst := by
  induction tbl with
  | nil => rfl
  | cons e t ih =>
    obtain ⟨k, w⟩ := e
    by_cases hk : k = r
    · subst hk
      rw [setHref_cons_eq k v w t, List.map_cons, List.map_cons, ih]
    · rw [setHref_cons_ne r k v w t hk, List.map_cons, List.map_cons, ih]

/-- Helper: one loop iteration preserves the key list of the table. -/
theorem stepAnchor_keys (root : MathPlugin.LNode)
    (tbl : List (Nat × MathPlugin.HrefV)) (r : Nat) :
    (MathPlugin.stepAnchor root tbl r).map Prod.fst = tbl.map Prod.fst := by
  rw [MathPlugin.stepAnchor]
  cases hl : MathPlugin.lookupHref r tbl with
  | none => rfl
  | some h => exact setHref_keys r (MathPlugin.fixAnchorHref root h) tbl

/-- Helper: the whole loop preserves the key list of the table. -/
theorem foldAnchors_keys (root : MathPlugin.LNode) (rs : List Nat)
    (tbl : List (Nat × MathPlugin.HrefV)) :
    ((rs.foldl (MathPlugin.stepAnchor root) tbl).map Prod.fst) = tbl.map Prod.fst := by
  induction rs generalizing tbl with
  | nil => rfl
  | cons r t ih =>
    rw [List.foldl_cons, ih (MathPlugin.stepAnchor root tbl r), stepAnchor_keys]

/-- Helper: one loop iteration leaves the hrefs of other anchors alone. -/
theorem stepAnchor_lookup_other (root : MathPlugin.LNode)
    (tbl : List (Nat × MathPlugin.HrefV)) (r r' : Nat) (hne : r' ≠ r) :
    MathPlugin.lookupHref r' (MathPlugin.stepAnchor root tbl r) =
      MathPlugin.lookupHref r' tbl := by
  rw [MathPlugin.stepAnchor]
  cases hl : MathPlugin.lookupHref r tbl with
  | none => rfl
  | some h => exact lookupHref_setHref_other r r' (MathPlugin.fixAnchorHref root h) tbl hne

/-- Helper: anchors outside the processed list keep their href. -/
theorem foldAnchors_lookup_notmem (root : MathPlugin.LNode) (rs : List Nat)
    (tbl : List (Nat × MathPlugin.HrefV)) (r : Nat) (hr : r ∉ rs) :
    MathPlugin.lookupHref r (rs.foldl (MathPlugin.stepAnchor root) tbl) =
      MathPlugin.lookupHref r tbl := by
  induction rs generalizing tbl with
  | nil => rfl
  | cons r' t ih =>
    rw [List.foldl_cons]
    have hne : r ≠ r' := fun habs => hr (habs ▸ List.mem_cons_self r' t)
    rw [ih (MathPlugin.stepAnchor root tbl r')
        (fun habs => hr (List.mem_cons_of_mem r' habs)),
      stepAnchor_lookup_other root tbl r' r hne]

/-- Helper: after one full `fixLinks` pass, each anchor processed once holds
the rewrite of its initial href. -/
theorem foldAnchors_lookup_mem (root : MathPlugin.LNode) (rs : List Nat)
    (hnd : rs.Nodup) (tbl : List (Nat × MathPlugin.HrefV)) (r : Nat) (hr : r ∈ rs) :
    MathPlugin.lookupHref r (rs.foldl (MathPlugin.stepAnchor root) tbl) =
      (MathPlugin.lookupHref r tbl).map (fun h => MathPlugin.fixAnchorHref root h) := by
  induction rs generalizing tbl with
  | nil => cases hr
  | cons r' t ih =>
    rw [List.foldl_cons]
    rcases List.mem_cons.mp hr with rfl | hrt
    · have hnt : r ∉ t := (List.nodup_cons.mp hnd).1
      rw [foldAnchors_lookup_notmem root t _ r hnt]
      rw [MathPlugin.stepAnchor]
      cases hl : MathPlugin.lookupHref r tbl with
      | none => simp [hl]
      | some h0 => simp [hl, lookupHref_setHref_self]
    · have hne : r ≠ r' := by
        rintro rfl
        exact (List.nodup_cons.mp hnd).1 hrt
      rw [ih (List.nodup_cons.mp hnd).2 (MathPlugin.stepAnchor root tbl r') hrt,
        stepAnchor_lookup_other root tbl r' r hne]

/-- Helper: a pass over anchors whose hrefs are all fixpoints of the rewrite
is the identity on the table. -/
theorem foldAnchors_stable (root : MathPlugin.LNode) (rs : List Nat)
    (tbl : List (Nat × MathPlugin.HrefV))
    (hnd : (tbl.map Prod.fst).Nodup)
    (hfix : ∀ r ∈ rs, ∀ v, MathPlugin.lookupHref r tbl = some v →
      MathPlugin.fixAnchorHref root v = v) :
    rs.foldl (MathPlugin.stepAnchor root) tbl = tbl := by
  induction rs with
  | nil => rfl
  | cons r t ih =>
    rw [List.foldl_cons]
    have hstep : MathPlugin.stepAnchor root tbl r = tbl := by
      rw [MathPlugin.stepAnchor]
      cases hl : MathPlugin.lookupHref r tbl with
      | none => rfl
      | some v =>
        show MathPlugin.setHref r (MathPlugin.fixAnchorHref root v) tbl = tbl
        rw [hfix r (List.mem_cons_self r t) v hl]
        exact setHref_eq_of_lookup r v tbl hnd hl
    rw [hstep]
    exact ih (fun r' hr' v hv => hfix r' (List.mem_cons_of_mem r hr') v hv)

mutual

/-- Helper: the anchor refs form a sublist of all refs of the tree. -/
theorem anchorRefs_sublist (n : MathPlugin.LNode) :
    (MathPlugin.anchorRefs n).Sublist (MathPlugin.refsOf n) := by
  cases n with
  | node r tag i ch =>
    rw [MathPlugin.anchorRefs, MathPlugin.refsOf]
    by_cases ht : tag == ("a".toList)
    · rw [if_pos ht]
      exact (anchorRefsL_sublist ch).cons₂ r
    · rw [if_neg ht, List.nil_append]
      exact (anchorRefsL_sublist ch).cons r

/-- List version of `anchorRefs_sublist`. -/
theorem anchorRefsL_sublist (l : List MathPlugin.LNode) :
    (MathPlugin.anchorRefsL l).Sublist (MathPlugin.refsOfL l) := by
  cases l with
  | nil => exact List.Sublist.refl []
  | cons c t =>
    rw [MathPlugin.anchorRefsL, MathPlugin.refsOfL]
    exact (anchorRefs_sublist c).append (anchorRefsL_sublist t)

end

/-- Claim C4, amended: `fixLinks` is idempotent on every document whose node
identities are distinct (as in a real DOM) and in which no slide section's id
still carries the equation-anchor marker after rewriting (no section id `i`
with `"#" ++ i` containing `#mjx-eqn` — the condition the spec's own
justification relies on): a rewritten fragment then no longer matches, and a
second run changes nothing. -/
theorem fixLinks_idempotent_of_clean (d : MathPlugin.LDoc)
    (hrefsNd : (MathPlugin.refsOf d.root).Nodup)
    (hkeysNd : (d.hrefs.map Prod.fst).Nodup)
    (hc : MathPlugin.secIdsClean d.root = true) :
    MathPlugin.fixLinks (MathPlugin.fixLinks d) = MathPlugin.fixLinks d := by
  have hand : (MathPlugin.anchorRefs d.root).Nodup :=
    hrefsNd.sublist (anchorRefs_sublist d.root)
  have htbl : (MathPlugin.anchorRefs d.root).foldl (MathPlugin.stepAnchor d.root)
      ((MathPlugin.anchorRefs d.root).foldl (MathPlugin.stepAnchor d.root) d.hrefs) =
      (MathPlugin.anchorRefs d.root).foldl (MathPlugin.stepAnchor d.root) d.hrefs := by
    apply foldAnchors_stable
    · rw [foldAnchors_keys]
      exact hkeysNd
    · intro r hr v hv
      rw [foldAnchors_lookup_mem d.root _ hand d.hrefs r hr] at hv
      cases hl : MathPlugin.lookupHref r d.hrefs with
      | none =>
        rw [hl] at hv
        exact Option.noConfusion hv
      | some w =>
        rw [hl] at hv
        have hvw : MathPlugin.fixAnchorHref d.root w = v := Option.some.inj hv
        rw [← hvw]
        exact fixAnchorHref_idem d.root hc w
  exact congrArg (MathPlugin.LDoc.mk d.root) htbl

/-- Witness for `fixLinks_idempotent_of_clean` at the concrete scenario
document: its refs and table keys are distinct, its only section id is
`slide-7` (marker-free), and running `fixLinks` twice equals running it
once. -/
theorem fixLinks_idempotent_witness :
    (MathPlugin.refsOf MathPlugin.eqnDoc.root).Nodup ∧
    (MathPlugin.eqnDoc.hrefs.map Prod.fst).Nodup ∧
    MathPlugin.secIdsClean MathPlugin.eqnDoc.root = true ∧
    MathPlugin.fixLinks (MathPlugin.fixLinks MathPlugin.eqnDoc) =
      MathPlugin.fixLinks MathPlugin.eqnDoc :=
  ⟨by decide, by decide, by decide,
    fixLinks_idempotent_of_clean MathPlugin.eqnDoc (by decide) (by decide) (by decide)⟩

/-- Helper for C9: a plain-string href is preserved across the whole loop. -/
theorem foldAnchors_preserves_plain (root : MathPlugin.LNode) (rs : List Nat)
    (tbl : List (Nat × MathPlugin.HrefV)) (r : Nat) (s : Str)
    (h : MathPlugin.lookupHref r tbl = some (MathPlugin.HrefV.plain s)) :
    MathPlugin.lookupHref r (rs.foldl (MathPlugin.stepAnchor root) tbl) =
      some (MathPlugin.HrefV.plain s) := by
  induction rs generalizing tbl with
  | nil => exact h
  | cons r' t ih =>
    rw [List.foldl_cons]
    apply ih
    by_cases hne : r = r'
    · subst hne
      rw [MathPlugin.stepAnchor, h]
      show MathPlugin.lookupHref r
        (MathPlugin.setHref r
          (MathPlugin.fixAnchorHref root (MathPlugin.HrefV.plain s)) tbl) =
        some (MathPlugin.HrefV.plain s)
      rw [show MathPlugin.fixAnchorHref root (MathPlugin.HrefV.plain s) =
          MathPlugin.HrefV.plain s from rfl]
      rw [lookupHref_setHref_self, h]
      rfl
    · rw [stepAnchor_lookup_other root tbl r' r hne]
      exact h

/-- Claim C9: `fixLinks` never touches the element tree, and an anchor whose
`href` is a plain string (no `baseVal`, as on an HTML anchor) keeps exactly
that href — even when its fragment contains the `#mjx-eqn` marker. -/
theorem fixLinks_plain_unchanged (d : MathPlugin.LDoc) (r : Nat) (s : Str)
    (h : MathPlugin.lookupHref r d.hrefs = some (MathPlugin.HrefV.plain s)) :
    (MathPlugin.fixLinks d).root = d.root ∧
    MathPlugin.lookupHref r (MathPlugin.fixLinks d).hrefs =
      some (MathPlugin.HrefV.plain s) :=
  ⟨rfl, foldAnchors_preserves_plain d.root (MathPlugin.anchorRefs d.root) d.hrefs r s h⟩

/-- Witness for `fixLinks_plain_unchanged`: in `plainDoc` the anchor's href is
the plain string `#mjx-eqn:3` (its fragment contains the marker), and after
`fixLinks` the tree and that href are unchanged. -/
theorem fixLinks_plain_unchanged_witness :
    MathPlugin.lookupHref 3 MathPlugin.plainDoc.hrefs =
      some (MathPlugin.HrefV.plain ("#mjx-eqn:3".toList)) ∧
    (MathPlugin.fixLinks MathPlugin.plainDoc).root = MathPlugin.plainDoc.root ∧
    MathPlugin.lookupHref 3 (MathPlugin.fixLinks MathPlugin.plainDoc).hrefs =
      some (MathPlugin.HrefV.plain ("#mjx-eqn:3".toList)) :=
  ⟨by decide,
    fixLinks_plain_unchanged MathPlugin.plainDoc 3 ("#mjx-eqn:3".toList) (by decide)⟩

namespace PrintPlugin

/-- Helper: `refsPL` distributes over append. -/
theorem refsPL_append (a b : List PNode) :
    refsPL (a ++ b) = refsPL a ++ refsPL b := by
  induction a with
  | nil => rfl
  | cons c t ih => rw [List.cons_append, refsPL, refsPL, ih, List.append_assoc]

/-- Helper: `hasPTL` distributes over append. -/
theorem hasPTL_append (r t : Nat) (s : Str) (a b : List PNode) :
    hasPTL r t s (a ++ b) = (hasPTL r t s a || hasPTL r t s b) := by
  induction a with
  | nil => rw [List.nil_append, hasPTL, Bool.false_or]
  | cons c u ih => rw [List.cons_append, hasPTL, hasPTL, ih, Bool.or_assoc]

/-- Helper: `textRefFreeL` distributes over append. -/
theorem textRefFreeL_append (q : Nat) (a b : List PNode) :
    textRefFreeL q (a ++ b) = (textRefFreeL q a && textRefFreeL q b) := by
  induction a with
  | nil => rw [List.nil_append, textRefFreeL, Bool.true_and]
  | cons c u ih => rw [List.cons_append, textRefFreeL, textRefFreeL, ih, Bool.and_assoc]

/-- Helper: a node whose ref is `x` is what `findRef` returns at once. -/
theorem findRef_self (x : Nat) (c : PNode) (h : c.pref = x) :
    findRef x c = some c := by
  cases c with
  | text r s =>
    rw [PNode.pref] at h
    rw [findRef, if_pos h]
  | elem r tg cls ch =>
    rw [PNode.pref] at h
    rw [findRef, if_pos h]

mutual

/-- Helper: detaching a ref that does not occur is the identity. -/
theorem removeFirst_of_findRef_none (x : Nat) (n : PNode)
    (h : findRef x n = none) : removeFirst x n = (n, false) := by
  cases n with
  | text r s =>
    rfl
  | elem r tg cls ch =>
    rw [findRef] at h
    by_cases hr : r = x
    · rw [if_pos hr] at h
      exact Option.noConfusion h
    · rw [if_neg hr] at h
      rw [removeFirst, removeFirstL_of_findRefL_none x ch h]

/-- List version of `removeFirst_of_findRef_none`. -/
theorem removeFirstL_of_findRefL_none (x : Nat) (l : List PNode)
    (h : findRefL x l = none) : removeFirstL x l = (l, false) := by
  cases l with
  | nil => rfl
  | cons c rest =>
    rw [findRefL] at h
    cases hc : findRef x c with
    | some f => rw [hc] at h; exact Option.noConfusion h
    | none =>
      simp only [hc] at h
      have hcp : ¬c.pref = x := by
        intro habs
        rw [findRef_self x c habs] at hc
        exact Option.noConfusion hc
      rw [removeFirstL, if_neg hcp]
      simp only [removeFirst_of_findRef_none x c hc,
        removeFirstL_of_findRefL_none x rest h, Bool.false_eq_true, if_false]

end

mutual

/-- Helper: when `findRef` hits among the strict descendants, `removeFirst`
reports a detachment. -/
theorem removeFirst_found (x : Nat) (n : PNode) (f : PNode)
    (hne : ¬n.pref = x) (h : findRef x n = some f) :
    (removeFirst x n).2 = true := by
  cases n with
  | text r s =>
    rw [PNode.pref] at hne
    rw [findRef, if_neg hne] at h
    exact Option.noConfusion h
  | elem r tg cls ch =>
    rw [PNode.pref] at hne
    rw [findRef, if_neg hne] at h
    rw [removeFirst]
    exact removeFirstL_found x ch f h

/-- List version of `removeFirst_found`. -/
theorem removeFirstL_found (x : Nat) (l : List PNode) (f : PNode)
    (h : findRefL x l = some f) : (removeFirstL x l).2 = true := by
  cases l with
  | nil => exact Option.noConfusion h
  | cons c rest =>
    rw [findRefL] at h
    by_cases hcp : c.pref = x
    · rw [removeFirstL, if_pos hcp]
    · rw [removeFirstL, if_neg hcp]
      cases hc : findRef x c with
      | some g =>
        have h2 : (removeFirst x c).2 = true := removeFirst_found x c g hcp hc
        simp [h2]
      | none =>
        simp only [hc] at h
        simp only [removeFirst_of_findRef_none x c hc]
        simp only [Bool.false_eq_true, if_false]
        exact removeFirstL_found x rest f h

end

/-- Helper: a text node whose ref is not the detached one survives a
detachment at its own level. -/
theorem text_mem_removeFirstL (x : Nat) (l : List PNode) (c0 : PNode)
    (hm : c0 ∈ l) (ht : c0.isElemN = false) (hne : ¬c0.pref = x) :
    c0 ∈ (removeFirstL x l).1 := by
  induction l with
  | nil => cases hm
  | cons c rest ih =>
    rcases List.mem_cons.mp hm with rfl | hrest
    · rw [removeFirstL, if_neg hne]
      cases c0 with
      | elem r tg cls ch => exact Bool.noConfusion ht
      | text r s =>
        simp only [show removeFirst x (PNode.text r s) = (PNode.text r s, false)
          from rfl]
        simp only [Bool.false_eq_true, if_false]
        exact List.mem_cons_self _ _
    · by_cases hcp : c.pref = x
      · rw [removeFirstL, if_pos hcp]
        exact hrest
      · rw [removeFirstL, if_neg hcp]
        cases hb : (removeFirst x c).2 with
        | true =>
          simp only [hb, if_pos]
          exact List.mem_cons_of_mem _ hrest
        | false =>
          simp only [hb, Bool.false_eq_true, if_false]
          exact List.mem_cons_of_mem _ (ih hrest)

end PrintPlugin

namespace PrintPlugin

/-- Helper: unfolding one detachment step, drop case. -/
theorem removeFirstL_cons_drop (x : Nat) (c : PNode) (rest : List PNode)
    (hcp : c.pref = x) : removeFirstL x (c :: rest) = (rest, true) := by
  rw [removeFirstL, if_pos hcp]

/-- Helper: unfolding one detachment step, detach-inside-head case. -/
theorem removeFirstL_cons_inside (x : Nat) (c : PNode) (rest : List PNode)
    (hcp : ¬c.pref = x) (hb : (removeFirst x c).2 = true) :
    removeFirstL x (c :: rest) = ((removeFirst x c).1 :: rest, true) := by
  rw [removeFirstL, if_neg hcp]
  simp [hb]

/-- Helper: unfolding one detachment step, not-in-head case. -/
theorem removeFirstL_cons_skip (x : Nat) (c : PNode) (rest : List PNode)
    (hcp : ¬c.pref = x) (hb : (removeFirst x c).2 = false) :
    removeFirstL x (c :: rest) = (c :: (removeFirstL x rest).1, (removeFirstL x rest).2) := by
  rw [removeFirstL, if_neg hcp]
  simp [hb]

mutual

/-- Helper: a detachment's refs form a sublist of the original refs. -/
theorem removeFirst_refs_sublist (x : Nat) (n : PNode) :
    (refsP (removeFirst x n).1).Sublist (refsP n) := by
  cases n with
  | text r s => exact List.Sublist.refl _
  | elem r tg cls ch =>
    show (refsP (PNode.elem r tg cls (removeFirstL x ch).1)).Sublist
      (refsP (PNode.elem r tg cls ch))
    rw [refsP, refsP]
    exact (removeFirstL_refs_sublist x ch).cons₂ r

/-- List version of `removeFirst_refs_sublist`. -/
theorem removeFirstL_refs_sublist (x : Nat) (l : List PNode) :
    (refsPL (removeFirstL x l).1).Sublist (refsPL l) := by
  cases l with
  | nil => exact List.Sublist.refl _
  | cons c rest =>
    by_cases hcp : c.pref = x
    · rw [removeFirstL_cons_drop x c rest hcp, refsPL]
      exact List.sublist_append_right _ _
    · cases hb : (removeFirst x c).2 with
      | true =>
        rw [removeFirstL_cons_inside x c rest hcp hb, refsPL, refsPL]
        exact (removeFirst_refs_sublist x c).append (List.Sublist.refl _)
      | false =>
        rw [removeFirstL_cons_skip x c rest hcp hb, refsPL, refsPL]
        exact (List.Sublist.refl _).append (removeFirstL_refs_sublist x rest)

end

mutual

/-- Helper: detaching a found node splits the refs into the detached
subtree's refs and the remainder's refs, up to permutation. -/
theorem removeFirst_found_perm (x : Nat) (n : PNode) (f : PNode)
    (hne : ¬n.pref = x) (h : findRef x n = some f) :
    (refsP f ++ refsP (removeFirst x n).1).Perm (refsP n) := by
  cases n with
  | text r s =>
    rw [PNode.pref] at hne
    rw [findRef, if_neg hne] at h
    exact Option.noConfusion h
  | elem r tg cls ch =>
    rw [PNode.pref] at hne
    rw [findRef, if_neg hne] at h
    show (refsP f ++ refsP (PNode.elem r tg cls (removeFirstL x ch).1)).Perm
      (refsP (PNode.elem r tg cls ch))
    rw [refsP, refsP]
    exact List.perm_middle.trans
      ((removeFirstL_found_perm x ch f h).cons r)

/-- List version of `removeFirst_found_perm`. -/
theorem removeFirstL_found_perm (x : Nat) (l : List PNode) (f : PNode)
    (h : findRefL x l = some f) :
    (refsP f ++ refsPL (removeFirstL x l).1).Perm (refsPL l) := by
  cases l with
  | nil => exact Option.noConfusion h
  | cons c rest =>
    rw [findRefL] at h
    cases hc : findRef x c with
    | some g =>
      simp only [hc] at h
      have hgf : g = f := Option.some.inj h
      by_cases hcp : c.pref = x
      · have hfc : f = c :=
          hgf.symm.trans (Option.some.inj (hc.symm.trans (findRef_self x c hcp)))
        rw [removeFirstL_cons_drop x c rest hcp, refsPL, hfc]
      · have hb : (removeFirst x c).2 = true := removeFirst_found x c g hcp hc
        rw [removeFirstL_cons_inside x c rest hcp hb, refsPL, refsPL,
          ← List.append_assoc]
        exact (hgf ▸ removeFirst_found_perm x c g hcp hc).append_right _
    | none =>
      simp only [hc] at h
      have hcp : ¬c.pref = x := by
        intro habs
        rw [findRef_self x c habs] at hc
        exact Option.noConfusion hc
      have hb : (removeFirst x c).2 = false :=
        congrArg Prod.snd (removeFirst_of_findRef_none x c hc)
      rw [removeFirstL_cons_skip x c rest hcp hb, refsPL, refsPL]
      have h1 : (refsP f ++ (refsP c ++ refsPL (removeFirstL x rest).1)).Perm
          (refsP c ++ (refsP f ++ refsPL (removeFirstL x rest).1)) := by
        rw [← List.append_assoc, ← List.append_assoc]
        exact List.perm_append_comm.append_right _
      exact h1.trans ((removeFirstL_found_perm x rest f h).append_left _)

end

/-- Helper: moving a descendant to the end of the slide's children permutes
the refs. -/
theorem moveToSlide_refs_perm (x : Nat) (slide : PNode)
    (hne : ¬slide.pref = x) :
    (refsP (moveToSlide x slide)).Perm (refsP slide) := by
  rw [moveToSlide]
  cases hf : findRef x slide with
  | none => exact List.Perm.refl _
  | some f =>
    cases slide with
    | text r s =>
      rw [PNode.pref] at hne
      rw [findRef, if_neg hne] at hf
      exact Option.noConfusion hf
    | elem r tg cls ch =>
      rw [PNode.pref] at hne
      rw [findRef, if_neg hne] at hf
      show (refsP (appendToRoot f (PNode.elem r tg cls (removeFirstL x ch).1))).Perm
        (refsP (PNode.elem r tg cls ch))
      rw [appendToRoot, refsP, refsP, refsPL_append, refsPL, refsPL,
        List.append_nil]
      refine List.Perm.cons r ?_
      exact (List.perm_append_comm.trans (removeFirstL_found_perm x ch f hf))

end PrintPlugin

namespace PrintPlugin

mutual

/-- Helper: a ref that occurs nowhere is in particular no text node's ref. -/
theorem textRefFree_of_not_mem (x : Nat) (n : PNode) (h : x ∉ refsP n) :
    textRefFree x n = true := by
  cases n with
  | text r s =>
    rw [refsP] at h
    rw [textRefFree, decide_eq_true_eq]
    intro habs
    exact h (List.mem_singleton.mpr habs.symm)
  | elem r tg cls ch =>
    rw [refsP] at h
    rw [textRefFree]
    exact textRefFreeL_of_not_mem x ch (fun hm => h (List.mem_cons_of_mem r hm))

/-- List version of `textRefFree_of_not_mem`. -/
theorem textRefFreeL_of_not_mem (x : Nat) (l : List PNode) (h : x ∉ refsPL l) :
    textRefFreeL x l = true := by
  cases l with
  | nil => rfl
  | cons c rest =>
    rw [refsPL] at h
    rw [textRefFreeL,
      textRefFree_of_not_mem x c (fun hm => h (List.mem_append_left _ hm)),
      textRefFreeL_of_not_mem x rest (fun hm => h (List.mem_append_right _ hm)),
      Bool.and_self]

end

mutual

/-- Helper: an element ref occurring in the tree occurs among its refs. -/
theorem mem_refs_of_elemRefIn (x : Nat) (n : PNode)
    (h : elemRefIn x n = true) : x ∈ refsP n := by
  cases n with
  | text r s => exact Bool.noConfusion h
  | elem r tg cls ch =>
    rw [elemRefIn, Bool.or_eq_true] at h
    rw [refsP]
    rcases h with h | h
    · exact (of_decide_eq_true h) ▸ List.mem_cons_self r _
    · exact List.mem_cons_of_mem r (memL_refs_of_elemRefInL x ch h)

/-- List version of `mem_refs_of_elemRefIn`. -/
theorem memL_refs_of_elemRefInL (x : Nat) (l : List PNode)
    (h : elemRefInL x l = true) : x ∈ refsPL l := by
  cases l with
  | nil => exact Bool.noConfusion h
  | cons c rest =>
    rw [elemRefInL, Bool.or_eq_true] at h
    rw [refsPL]
    rcases h with h | h
    · exact List.mem_append_left _ (mem_refs_of_elemRefIn x c h)
    · exact List.mem_append_right _ (memL_refs_of_elemRefInL x rest h)

end

mutual

/-- Helper: with distinct node identities, an element's ref is no text
node's ref. -/
theorem textRefFree_of_elemRefIn (x : Nat) (n : PNode)
    (hnd : (refsP n).Nodup) (h : elemRefIn x n = true) :
    textRefFree x n = true := by
  cases n with
  | text r s => exact Bool.noConfusion h
  | elem r tg cls ch =>
    rw [refsP, List.nodup_cons] at hnd
    rw [elemRefIn, Bool.or_eq_true] at h
    rw [textRefFree]
    rcases h with h | h
    · exact textRefFreeL_of_not_mem x ch ((of_decide_eq_true h) ▸ hnd.1)
    · exact textRefFreeL_of_elemRefInL x ch hnd.2 h

/-- List version of `textRefFree_of_elemRefIn`. -/
theorem textRefFreeL_of_elemRefInL (x : Nat) (l : List PNode)
    (hnd : (refsPL l).Nodup) (h : elemRefInL x l = true) :
    textRefFreeL x l = true := by
  cases l with
  | nil => exact Bool.noConfusion h
  | cons c rest =>
    rw [refsPL] at hnd
    have hdisj := List.disjoint_of_nodup_append hnd
    rw [elemRefInL, Bool.or_eq_true] at h
    rw [textRefFreeL]
    rcases h with h | h
    · rw [textRefFree_of_elemRefIn x c hnd.of_append_left h,
        textRefFreeL_of_not_mem x rest (hdisj (mem_refs_of_elemRefIn x c h)),
        Bool.and_self]
    · rw [textRefFreeL_of_elemRefInL x rest hnd.of_append_right h,
        textRefFree_of_not_mem x c
          (fun hm => hdisj hm (memL_refs_of_elemRefInL x rest h)),
        Bool.and_self]

end

mutual

/-- Helper: a detachment never adds text nodes. -/
theorem textRefFree_removeFirst (q x : Nat) (n : PNode)
    (h : textRefFree q n = true) :
    textRefFree q (removeFirst x n).1 = true := by
  cases n with
  | text r s => exact h
  | elem r tg cls ch =>
    rw [textRefFree] at h
    show textRefFree q (PNode.elem r tg cls (removeFirstL x ch).1) = true
    rw [textRefFree]
    exact textRefFreeL_removeFirstL q x ch h

/-- List version of `textRefFree_removeFirst`. -/
theorem textRefFreeL_removeFirstL (q x : Nat) (l : List PNode)
    (h : textRefFreeL q l = true) :
    textRefFreeL q (removeFirstL x l).1 = true := by
  cases l with
  | nil => exact h
  | cons c rest =>
    rw [textRefFreeL, Bool.and_eq_true] at h
    by_cases hcp : c.pref = x
    · rw [removeFirstL_cons_drop x c rest hcp]
      exact h.2
    · cases hb : (removeFirst x c).2 with
      | true =>
        rw [removeFirstL_cons_inside x c rest hcp hb, textRefFreeL,
          textRefFree_removeFirst q x c h.1, h.2, Bool.and_self]
      | false =>
        rw [removeFirstL_cons_skip x c rest hcp hb, textRefFreeL, h.1,
          textRefFreeL_removeFirstL q x rest h.2, Bool.and_self]

end

mutual

/-- Helper: a found subtree inherits text-ref freedom. -/
theorem textRefFree_findRef (q x : Nat) (n : PNode) (f : PNode)
    (h : textRefFree q n = true) (hf : findRef x n = some f) :
    textRefFree q f = true := by
  cases n with
  | text r s =>
    rw [findRef] at hf
    by_cases hr : r = x
    · rw [if_pos hr] at hf
      exact (Option.some.inj hf) ▸ h
    · rw [if_neg hr] at hf
      exact Option.noConfusion hf
  | elem r tg cls ch =>
    rw [findRef] at hf
    by_cases hr : r = x
    · rw [if_pos hr] at hf
      exact (Option.some.inj hf) ▸ h
    · rw [if_neg hr] at hf
      rw [textRefFree] at h
      exact textRefFreeL_findRefL q x ch f h hf

/-- List version of `textRefFree_findRef`. -/
theorem textRefFreeL_findRefL (q x : Nat) (l : List PNode) (f : PNode)
    (h : textRefFreeL q l = true) (hf : findRefL x l = some f) :
    textRefFree q f = true := by
  cases l with
  | nil => exact Option.noConfusion hf
  | cons c rest =>
    rw [textRefFreeL, Bool.and_eq_true] at h
    rw [findRefL] at hf
    cases hc : findRef x c with
    | some g =>
      simp only [hc] at hf
      exact (Option.some.inj hf) ▸ textRefFree_findRef q x c g h.1 hc
    | none =>
      simp only [hc] at hf
      exact textRefFreeL_findRefL q x rest f h.2 hf

end

/-- Helper: moving a node around preserves text-ref freedom. -/
theorem textRefFree_moveToSlide (q x : Nat) (slide : PNode)
    (h : textRefFree q slide = true) :
    textRefFree q (moveToSlide x slide) = true := by
  rw [moveToSlide]
  cases hf : findRef x slide with
  | none => exact h
  | some f =>
    cases slide with
    | text r s => exact h
    | elem r tg cls ch =>
      show textRefFree q
        (appendToRoot f (PNode.elem r tg cls (removeFirstL x ch).1)) = true
      rw [appendToRoot, textRefFree, textRefFreeL_append, Bool.and_eq_true,
        textRefFreeL, Bool.and_eq_true]
      rw [textRefFree] at h
      refine ⟨textRefFreeL_removeFirstL q x ch h, ?_, rfl⟩
      exact textRefFree_findRef q x (PNode.elem r tg cls ch) f
        (by rw [textRefFree]; exact h) hf

end PrintPlugin

namespace PrintPlugin

/-- Helper: under text-ref freedom, a text node's ref differs from `q`. -/
theorem text_pref_ne_of_textRefFreeL (q : Nat) (l : List PNode) (c0 : PNode)
    (h : textRefFreeL q l = true) (hm : c0 ∈ l) (ht : c0.isElemN = false) :
    ¬c0.pref = q := by
  induction l with
  | nil => cases hm
  | cons c rest ih =>
    rw [textRefFreeL, Bool.and_eq_true] at h
    rcases List.mem_cons.mp hm with rfl | hrest
    · cases c0 with
      | elem r tg cls ch => exact Bool.noConfusion ht
      | text r s =>
        rw [textRefFree, decide_eq_true_eq] at h
        rw [PNode.pref]
        exact h.1
    · exact ih h.2 hrest

mutual

/-- Helper: a `P`-with-text witness survives detaching an element-ref
subtree, unless the detached subtree carries it away. -/
theorem hasPT_removeFirst_split (r t : Nat) (s : Str) (x : Nat) (n : PNode)
    (hpt : hasPT r t s n = true) (htf : textRefFree x n = true) :
    hasPT r t s (removeFirst x n).1 = true ∨
    ∃ f, findRef x n = some f ∧ hasPT r t s f = true := by
  cases n with
  | text r' s' => exact Bool.noConfusion hpt
  | elem r' tg cls ch =>
    by_cases hr' : r' = x
    · exact Or.inr ⟨PNode.elem r' tg cls ch, by rw [findRef, if_pos hr'], hpt⟩
    · rw [textRefFree] at htf
      rw [hasPT, Bool.or_eq_true] at hpt
      rcases hpt with hself | hsub
      · left
        show hasPT r t s (PNode.elem r' tg cls (removeFirstL x ch).1) = true
        rw [hasPT, Bool.or_eq_true]
        left
        rw [Bool.and_eq_true, Bool.and_eq_true] at hself
        obtain ⟨⟨h1, h2⟩, h3⟩ := hself
        rw [List.any_eq_true] at h3
        obtain ⟨c0, hc0m, hc0p⟩ := h3
        have hc0t : c0.isElemN = false := by
          cases c0 with
          | elem a b cc d => exact Bool.noConfusion hc0p
          | text a b => rfl
        have hc0x : ¬c0.pref = x :=
          text_pref_ne_of_textRefFreeL x ch c0 htf hc0m hc0t
        rw [Bool.and_eq_true, Bool.and_eq_true]
        refine ⟨⟨h1, h2⟩, ?_⟩
        rw [List.any_eq_true]
        exact ⟨c0, text_mem_removeFirstL x ch c0 hc0m hc0t hc0x, hc0p⟩
      · rcases hasPTL_removeFirstL_split r t s x ch hsub htf with hl | ⟨f, hf, hptf⟩
        · left
          show hasPT r t s (PNode.elem r' tg cls (removeFirstL x ch).1) = true
          rw [hasPT, Bool.or_eq_true]
          exact Or.inr hl
        · exact Or.inr ⟨f, by rw [findRef, if_neg hr']; exact hf, hptf⟩

/-- List version of `hasPT_removeFirst_split`. -/
theorem hasPTL_removeFirstL_split (r t : Nat) (s : Str) (x : Nat)
    (l : List PNode)
    (hpt : hasPTL r t s l = true) (htf : textRefFreeL x l = true) :
    hasPTL r t s (removeFirstL x l).1 = true ∨
    ∃ f, findRefL x l = some f ∧ hasPT r t s f = true := by
  cases l with
  | nil => exact Bool.noConfusion hpt
  | cons c rest =>
    rw [hasPTL, Bool.or_eq_true] at hpt
    rw [textRefFreeL, Bool.and_eq_true] at htf
    by_cases hcp : c.pref = x
    · rcases hpt with hptc | hptr
      · exact Or.inr ⟨c, by rw [findRefL]; simp [findRef_self x c hcp], hptc⟩
      · left
        rw [removeFirstL_cons_drop x c rest hcp]
        exact hptr
    · cases hc : findRef x c with
      | some g =>
        have hb : (removeFirst x c).2 = true := removeFirst_found x c g hcp hc
        rw [removeFirstL_cons_inside x c rest hcp hb]
        rcases hpt with hptc | hptr
        · rcases hasPT_removeFirst_split r t s x c hptc htf.1
            with hl | ⟨f, hf, hptf⟩
          · left
            rw [hasPTL, Bool.or_eq_true]
            exact Or.inl hl
          · exact Or.inr ⟨f, by rw [findRefL]; simp [hf], hptf⟩
        · left
          rw [hasPTL, Bool.or_eq_true]
          exact Or.inr hptr
      | none =>
        have hb : (removeFirst x c).2 = false :=
          congrArg Prod.snd (removeFirst_of_findRef_none x c hc)
        rw [removeFirstL_cons_skip x c rest hcp hb]
        rcases hpt with hptc | hptr
        · left
          rw [hasPTL, Bool.or_eq_true]
          exact Or.inl hptc
        · rcases hasPTL_removeFirstL_split r t s x rest hptr htf.2
            with hl | ⟨f, hf, hptf⟩
          · left
            rw [hasPTL, Bool.or_eq_true]
            exact Or.inr hl
          · exact Or.inr ⟨f, by rw [findRefL]; simp [hc]; exact hf, hptf⟩

end

/-- Helper: appending a child to the root keeps an existing witness. -/
theorem hasPT_append_left (r t : Nat) (s : Str) (r' : Nat) (tg : Str)
    (cls : List Str) (ch : List PNode) (f : PNode)
    (h : hasPT r t s (PNode.elem r' tg cls ch) = true) :
    hasPT r t s (PNode.elem r' tg cls (ch ++ [f])) = true := by
  rw [hasPT, Bool.or_eq_true] at h
  rw [hasPT, Bool.or_eq_true]
  rcases h with hself | hsub
  · left
    rw [Bool.and_eq_true, Bool.and_eq_true] at hself
    rw [Bool.and_eq_true, Bool.and_eq_true]
    refine ⟨hself.1, ?_⟩
    rw [List.any_eq_true]
    obtain ⟨c0, hm, hp⟩ := List.any_eq_true.mp hself.2
    exact ⟨c0, List.mem_append_left _ hm, hp⟩
  · right
    rw [hasPTL_append, Bool.or_eq_true]
    exact Or.inl hsub

/-- Helper: appending a subtree that carries the witness restores it. -/
theorem hasPT_append_self (r t : Nat) (s : Str) (r' : Nat) (tg : Str)
    (cls : List Str) (ch : List PNode) (f : PNode)
    (h : hasPT r t s f = true) :
    hasPT r t s (PNode.elem r' tg cls (ch ++ [f])) = true := by
  rw [hasPT, Bool.or_eq_true]
  right
  rw [hasPTL_append, Bool.or_eq_true]
  right
  rw [hasPTL, h, Bool.true_or]

/-- Helper: moving an element-ref node (a footer) to the end of the slide
preserves a `P`-with-text witness. -/
theorem hasPT_moveToSlide (r t : Nat) (s : Str) (x : Nat) (slide : PNode)
    (hpt : hasPT r t s slide = true) (htf : textRefFree x slide = true) :
    hasPT r t s (moveToSlide x slide) = true := by
  rw [moveToSlide]
  cases hf : findRef x slide with
  | none => exact hpt
  | some f =>
    cases slide with
    | text r' s' => exact Bool.noConfusion hpt
    | elem r' tg cls ch =>
      show hasPT r t s
        (appendToRoot f (PNode.elem r' tg cls (removeFirstL x ch).1)) = true
      rw [appendToRoot]
      rcases hasPT_removeFirst_split r t s x (PNode.elem r' tg cls ch) hpt htf
        with hl | ⟨g, hg, hptg⟩
      · exact hasPT_append_left r t s r' tg cls (removeFirstL x ch).1 f hl
      · have hgf : g = f := by
          rw [hf] at hg
          exact (Option.some.inj hg).symm
        exact hasPT_append_self r t s r' tg cls (removeFirstL x ch).1 f (hgf ▸ hptg)

end PrintPlugin

namespace PrintPlugin

/-- Helper: a childless node carries no `P`-with-text witness. -/
theorem hasPT_of_no_children (r t : Nat) (s : Str) (p' : PNode)
    (hemp : p'.pchildren = []) : hasPT r t s p' = false := by
  cases p' with
  | text a b => rfl
  | elem a b c d =>
    rw [PNode.pchildren] at hemp
    subst hemp
    rw [hasPT, hasPTL]
    simp

/-- Helper: the removal step of `fixFooters` (which only ever fires on a node
that has no child nodes left) preserves a `P`-with-text witness. -/
theorem hasPT_removeEmpty (r t : Nat) (s : Str) (q : Nat) (n : PNode)
    (hpt : hasPT r t s n = true) (htf : textRefFree q n = true)
    (p' : PNode) (hf : findRef q n = some p') (hemp : p'.pchildren = []) :
    hasPT r t s (removeFirst q n).1 = true := by
  rcases hasPT_removeFirst_split r t s q n hpt htf with hl | ⟨f, hfind, hptf⟩
  · exact hl
  · exfalso
    have hfp : f = p' := by
      rw [hf] at hfind
      exact (Option.some.inj hfind).symm
    rw [hfp, hasPT_of_no_children r t s p' hemp] at hptf
    exact Bool.noConfusion hptf

mutual

/-- Helper: `parentOf` returns an element that occurs in the tree. -/
theorem parentOf_elemRefIn (x : Nat) (n : PNode) (p : PNode)
    (h : parentOf x n = some p) :
    p.isElemN = true ∧ elemRefIn p.pref n = true := by
  cases n with
  | text r s => exact Option.noConfusion h
  | elem r tg cls ch =>
    rw [parentOf] at h
    split at h
    · have hpn : PNode.elem r tg cls ch = p := Option.some.inj h
      constructor
      · rw [← hpn]; rfl
      · rw [← hpn, PNode.pref, elemRefIn, Bool.or_eq_true]
        exact Or.inl (by simp)
    · have hsub := parentOfL_elemRefIn x ch p h
      exact ⟨hsub.1, by rw [elemRefIn, Bool.or_eq_true]; exact Or.inr hsub.2⟩

/-- List version of `parentOf_elemRefIn`. -/
theorem parentOfL_elemRefIn (x : Nat) (l : List PNode) (p : PNode)
    (h : parentOfL x l = some p) :
    p.isElemN = true ∧ elemRefInL p.pref l = true := by
  cases l with
  | nil => exact Option.noConfusion h
  | cons c rest =>
    rw [parentOfL] at h
    cases hc : parentOf x c with
    | some g =>
      simp only [hc] at h
      have hgp : g = p := Option.some.inj h
      have hsub := parentOf_elemRefIn x c g hc
      rw [hgp] at hsub
      exact ⟨hsub.1, by rw [elemRefInL, Bool.or_eq_true]; exact Or.inl hsub.2⟩
    | none =>
      simp only [hc] at h
      have hsub := parentOfL_elemRefIn x rest p h
      exact ⟨hsub.1, by rw [elemRefInL, Bool.or_eq_true]; exact Or.inr hsub.2⟩

end

mutual

/-- Helper: everything found by the footer query is an element occurring in
the tree. -/
theorem footerNodes_spec (n : PNode) (f : PNode) (h : f ∈ footerNodes n) :
    f.isElemN = true ∧ elemRefIn f.pref n = true := by
  cases n with
  | text r s =>
    rw [footerNodes] at h
    cases h
  | elem r tg cls ch =>
    rw [footerNodes] at h
    rcases List.mem_append.mp h with hl | hr
    · by_cases hcf : cls.contains ("footer".toList)
      · rw [if_pos hcf] at hl
        have hfn : f = PNode.elem r tg cls ch := List.mem_singleton.mp hl
        constructor
        · rw [hfn]; rfl
        · rw [hfn, PNode.pref, elemRefIn, Bool.or_eq_true]
          exact Or.inl (by simp)
      · rw [if_neg hcf] at hl
        cases hl
    · have hsub := footerNodesL_spec ch f hr
      exact ⟨hsub.1, by rw [elemRefIn, Bool.or_eq_true]; exact Or.inr hsub.2⟩

/-- List version of `footerNodes_spec`. -/
theorem footerNodesL_spec (l : List PNode) (f : PNode)
    (h : f ∈ footerNodesL l) :
    f.isElemN = true ∧ elemRefInL f.pref l = true := by
  cases l with
  | nil => cases h
  | cons c rest =>
    rw [footerNodesL] at h
    rcases List.mem_append.mp h with hl | hr
    · have hsub := footerNodes_spec c f hl
      exact ⟨hsub.1, by rw [elemRefInL, Bool.or_eq_true]; exact Or.inl hsub.2⟩
    · have hsub := footerNodesL_spec rest f hr
      exact ⟨hsub.1, by rw [elemRefInL, Bool.or_eq_true]; exact Or.inr hsub.2⟩

end

end PrintPlugin

namespace PrintPlugin

/-- Helper: one loop iteration preserves distinct node identities and any
`P`-with-text witness. -/
theorem fixStep_preserves (slide : PNode) (i : Nat) (r t : Nat) (s : Str)
    (hnd : (refsP slide).Nodup) (hpt : hasPT r t s slide = true) :
    (refsP (fixStep slide i)).Nodup ∧ hasPT r t s (fixStep slide i) = true := by
  cases slide with
  | text r0 s0 => exact ⟨hnd, hpt⟩
  | elem r0 tg0 cls0 ch0 =>
    rw [fixStep]
    cases hg : (footersOf (PNode.elem r0 tg0 cls0 ch0)).get? i with
    | none => exact ⟨hnd, hpt⟩
    | some f =>
      simp only [hg]
      cases hp : parentOf f.pref (PNode.elem r0 tg0 cls0 ch0) with
      | none => exact ⟨hnd, hpt⟩
      | some p =>
        simp only [hp]
        by_cases htag : (p.ptag == ("P".toList)) = true
        · rw [if_pos htag]
          have hfm : f ∈ footerNodesL ch0 := by
            rw [footersOf] at hg
            exact List.get?_mem hg
          have hfspec := footerNodesL_spec ch0 f hfm
          have hfin : elemRefIn f.pref (PNode.elem r0 tg0 cls0 ch0) = true := by
            rw [elemRefIn, Bool.or_eq_true]
            exact Or.inr hfspec.2
          have hne0 : ¬(PNode.elem r0 tg0 cls0 ch0).pref = f.pref := by
            rw [PNode.pref]
            intro habs
            have hnd' := hnd
            rw [refsP, List.nodup_cons] at hnd'
            exact hnd'.1 (habs ▸ memL_refs_of_elemRefInL f.pref ch0 hfspec.2)
          have htff : textRefFree f.pref (PNode.elem r0 tg0 cls0 ch0) = true :=
            textRefFree_of_elemRefIn f.pref _ hnd hfin
          have hperm := moveToSlide_refs_perm f.pref (PNode.elem r0 tg0 cls0 ch0) hne0
          have hnd1 : (refsP (moveToSlide f.pref (PNode.elem r0 tg0 cls0 ch0))).Nodup :=
            hperm.nodup_iff.mpr hnd
          have hpt1 := hasPT_moveToSlide r t s f.pref _ hpt htff
          have hpspec := parentOf_elemRefIn f.pref _ p hp
          have htfp : textRefFree p.pref (PNode.elem r0 tg0 cls0 ch0) = true :=
            textRefFree_of_elemRefIn p.pref _ hnd hpspec.2
          have htfp1 : textRefFree p.pref
              (moveToSlide f.pref (PNode.elem r0 tg0 cls0 ch0)) = true :=
            textRefFree_moveToSlide p.pref f.pref _ htfp
          cases hfr : findRef p.pref (moveToSlide f.pref (PNode.elem r0 tg0 cls0 ch0)) with
          | none => exact ⟨hnd1, hpt1⟩
          | some p' =>
            simp only [hfr]
            by_cases hlen : p'.pchildren.length = 0
            · rw [if_pos hlen]
              constructor
              · exact hnd1.sublist (removeFirst_refs_sublist p.pref _)
              · exact hasPT_removeEmpty r t s p.pref _ hpt1 htfp1 p' hfr
                  (List.length_eq_zero.mp hlen)
            · rw [if_neg hlen]
              exact ⟨hnd1, hpt1⟩
        · rw [if_neg htag]
          exact ⟨hnd, hpt⟩

/-- Helper: the whole loop preserves distinct identities and any
`P`-with-text witness. -/
theorem fixLoop_preserves (fuel : Nat) :
    ∀ (i : Nat) (slide : PNode) (r t : Nat) (s : Str),
    (refsP slide).Nodup → hasPT r t s slide = true →
    (refsP (fixLoop fuel i slide)).Nodup ∧
      hasPT r t s (fixLoop fuel i slide) = true := by
  induction fuel with
  | zero => exact fun i slide r t s hnd hpt => ⟨hnd, hpt⟩
  | succ fuel ih =>
    intro i slide r t s hnd hpt
    rw [fixLoop]
    by_cases hi : i < (footersOf slide).length
    · rw [if_pos hi]
      obtain ⟨h1, h2⟩ := fixStep_preserves slide i r t s hnd hpt
      exact ih (i + 1) (fixStep slide i) r t s h1 h2
    · rw [if_neg hi]
      exact ⟨hnd, hpt⟩

/-- Helper: an iteration whose footer's parent is not a `P` changes nothing. -/
theorem fixStep_nonP (slide : PNode) (i : Nat) (f p : PNode)
    (hg : (footersOf slide).get? i = some f)
    (hp : parentOf f.pref slide = some p)
    (htag : ¬p.ptag = ("P".toList)) :
    fixStep slide i = slide := by
  rw [fixStep]
  simp only [hg, hp]
  rw [if_neg (fun habs => htag (eq_of_beq habs))]

/-- Helper: if no footer of the slide has a `P` parent, the whole loop is the
identity. -/
theorem fixLoop_noFooterInP (slide : PNode) (hnp : noFooterInP slide = true) :
    ∀ (fuel i : Nat), fixLoop fuel i slide = slide := by
  intro fuel
  induction fuel with
  | zero => exact fun i => rfl
  | succ fuel ih =>
    intro i
    rw [fixLoop]
    by_cases hi : i < (footersOf slide).length
    · rw [if_pos hi]
      have hstep : fixStep slide i = slide := by
        have hf : (footersOf slide).get? i = some ((footersOf slide).get ⟨i, hi⟩) :=
          List.get?_eq_get hi
        have hfm : (footersOf slide).get ⟨i, hi⟩ ∈ footersOf slide :=
          List.get?_mem hf
        have hall := (List.all_eq_true.mp hnp) _ hfm
        cases hp : parentOf ((footersOf slide).get ⟨i, hi⟩).pref slide with
        | none =>
          rw [fixStep]
          simp only [hf, hp]
        | some p =>
          simp only [hp] at hall
          refine fixStep_nonP slide i _ p hf hp ?_
          intro habs
          rw [habs] at hall
          simp at hall
      rw [hstep]
      exact ih (i + 1)
    · rw [if_neg hi]

/-- Helper: `fixFooters` over slides with no footer in a `P` is the identity. -/
theorem fixFooters_noopAux (slides : List PNode)
    (h : ∀ sl ∈ slides, noFooterInP sl = true) : fixFooters slides = slides := by
  rw [fixFooters]
  have hid : ∀ sl ∈ slides, fixSlide sl = sl := by
    intro sl hm
    rw [fixSlide]
    exact fixLoop_noFooterInP sl (h sl hm) (countNodes sl) 0
  rw [List.map_congr_left hid]
  simp

/-- Helper: an iteration whose moved footer leaves its `P` parent nonempty
only performs the move; the wrapper is kept. -/
theorem fixStep_keepsWrapper (slide : PNode) (i : Nat) (f p p' : PNode)
    (hg : (footersOf slide).get? i = some f)
    (hp : parentOf f.pref slide = some p)
    (htag : p.ptag = ("P".toList))
    (hfr : findRef p.pref (moveToSlide f.pref slide) = some p')
    (hne : p'.pchildren.length ≠ 0) :
    fixStep slide i = moveToSlide f.pref slide := by
  rw [fixStep]
  simp only [hg, hp]
  rw [if_pos (by rw [htag]; exact beq_self_eq_true _)]
  simp only [hfr]
  rw [if_neg hne]

end PrintPlugin

/-- Claim C7: on a slide containing `<p><span class="footer">X</span></p>`,
running `fixFooters` makes the footer a direct child of the slide and removes
the now-empty paragraph from the document. -/
theorem fixFooters_footer_relocation :
    PrintPlugin.fixFooters [PrintPlugin.footerSlide] =
      [PrintPlugin.PNode.elem 0 ("SECTION".toList) [] [
        PrintPlugin.PNode.elem 2 ("SPAN".toList) [("footer".toList)] [
          PrintPlugin.PNode.text 3 ("X".toList)]]] := rfl

/-- Claim C10: (1) an iteration whose current footer's parent is not a `P`
element leaves the slide unchanged, and a deck in which no footer has a `P`
parent passes through `fixFooters` unchanged; (2) the wrapper paragraph is
removed only when it has zero remaining child nodes after the move — an
iteration whose re-read parent still has children performs the move only; and
(3) consequently, on slides with distinct node identities (as in a real DOM),
a `P` element holding a text-node child — such as a whitespace text node, the
spec's example, which no `fixFooters` operation ever relocates — survives the
whole per-slide run together with that child, both through `fixSlide` and
inside the `fixFooters` output. -/
theorem fixFooters_guards :
    (∀ (slide : PrintPlugin.PNode) (i : Nat) (f p : PrintPlugin.PNode),
      (PrintPlugin.footersOf slide).get? i = some f →
      PrintPlugin.parentOf f.pref slide = some p →
      ¬p.ptag = ("P".toList) →
      PrintPlugin.fixStep slide i = slide) ∧
    (∀ slides : List PrintPlugin.PNode,
      (∀ sl ∈ slides, PrintPlugin.noFooterInP sl = true) →
      PrintPlugin.fixFooters slides = slides) ∧
    (∀ (slide : PrintPlugin.PNode) (i : Nat) (f p p' : PrintPlugin.PNode),
      (PrintPlugin.footersOf slide).get? i = some f →
      PrintPlugin.parentOf f.pref slide = some p →
      p.ptag = ("P".toList) →
      PrintPlugin.findRef p.pref (PrintPlugin.moveToSlide f.pref slide) = some p' →
      p'.pchildren.length ≠ 0 →
      PrintPlugin.fixStep slide i = PrintPlugin.moveToSlide f.pref slide) ∧
    (∀ (slide : PrintPlugin.PNode) (r t : Nat) (s : Str),
      (PrintPlugin.refsP slide).Nodup →
      PrintPlugin.hasPT r t s slide = true →
      PrintPlugin.hasPT r t s (PrintPlugin.fixSlide slide) = true) ∧
    (∀ (slides : List PrintPlugin.PNode) (sl : PrintPlugin.PNode)
      (r t : Nat) (s : Str), sl ∈ slides →
      (PrintPlugin.refsP sl).Nodup →
      PrintPlugin.hasPT r t s sl = true →
      ∃ sl' ∈ PrintPlugin.fixFooters slides, PrintPlugin.hasPT r t s sl' = true) :=
  ⟨PrintPlugin.fixStep_nonP,
   PrintPlugin.fixFooters_noopAux,
   PrintPlugin.fixStep_keepsWrapper,
   fun slide r t s hnd hpt =>
     (PrintPlugin.fixLoop_preserves (PrintPlugin.countNodes slide) 0 slide r t s
       hnd hpt).2,
   fun slides sl r t s hm hnd hpt =>
     ⟨PrintPlugin.fixSlide sl, List.mem_map_of_mem PrintPlugin.fixSlide hm,
      (PrintPlugin.fixLoop_preserves (PrintPlugin.countNodes sl) 0 sl r t s
        hnd hpt).2⟩⟩

/-- Witness for `fixFooters_guards` at concrete slides: on `mixedSlide`,
iteration 0 (the `DIV`-wrapped footer) is a no-op; `divSlide` (no footer in a
`P`) passes through `fixFooters` unchanged; iteration 1 (the `P`-wrapped
footer, whose paragraph keeps a whitespace text node) performs only the move;
and the paragraph (ref 3) with its text child (ref 5) survives `fixSlide`. -/
theorem fixFooters_guards_witness :
    PrintPlugin.fixStep PrintPlugin.mixedSlide 0 = PrintPlugin.mixedSlide ∧
    PrintPlugin.noFooterInP PrintPlugin.divSlide = true ∧
    PrintPlugin.fixFooters [PrintPlugin.divSlide] = [PrintPlugin.divSlide] ∧
    PrintPlugin.fixStep PrintPlugin.mixedSlide 1 =
      PrintPlugin.moveToSlide 4 PrintPlugin.mixedSlide ∧
    (PrintPlugin.refsP PrintPlugin.mixedSlide).Nodup ∧
    PrintPlugin.hasPT 3 5 (" ".toList) PrintPlugin.mixedSlide = true ∧
    PrintPlugin.hasPT 3 5 (" ".toList)
      (PrintPlugin.fixSlide PrintPlugin.mixedSlide) = true :=
  ⟨fixFooters_guards.1 PrintPlugin.mixedSlide 0
      (PrintPlugin.PNode.elem 2 ("SPAN".toList) [("footer".toList)] [])
      (PrintPlugin.PNode.elem 1 ("DIV".toList) []
        [PrintPlugin.PNode.elem 2 ("SPAN".toList) [("footer".toList)] []])
      rfl rfl (by decide),
   by decide,
   fixFooters_guards.2.1 [PrintPlugin.divSlide]
     (fun sl hm => by rw [List.mem_singleton.mp hm]; decide),
   fixFooters_guards.2.2.1 PrintPlugin.mixedSlide 1
     (PrintPlugin.PNode.elem 4 ("SPAN".toList) [("footer".toList)] [])
     (PrintPlugin.PNode.elem 3 ("P".toList) []
       [PrintPlugin.PNode.elem 4 ("SPAN".toList) [("footer".toList)] [],
        PrintPlugin.PNode.text 5 (" ".toList)])
     (PrintPlugin.PNode.elem 3 ("P".toList) [] [PrintPlugin.PNode.text 5 (" ".toList)])
     rfl rfl rfl rfl (by decide),
   by decide,
   by decide,
   fixFooters_guards.2.2.2.1 PrintPlugin.mixedSlide 3 5 (" ".toList)
     (by decide) (by decide)⟩
